import Mathlib

/-!
# cbison: the C++ bridge over the CBISON plugin ABI

A shallow embedding of `src/cpp/cbison.hpp`, `cbison_factory.cpp`,
`cbison_tokenizer.cpp` and `cbison_loader.cpp`.

Conventions of the embedding.

* Machine integers are `Nat` / `Int`.  Conversions between C++ integer types
  that can change a value are explicit (`toInt32`, `wrapInt32`).
* A pointer to an opaque engine object is a `Nat`; `0` is `nullptr`.
* A caller buffer handed to the engine as (pointer, capacity) is a `Buf k`: a
  list of exactly `k` cells.  The engine returns the contents of the same
  `k` cells after its call, so it cannot change the capacity.
* The engine is stateful and opaque: each function of the ABI record takes the
  engine state `σ` and returns the next one.
* An optional function pointer of the ABI record is an `Option`; `none` is a
  null function pointer.
-/

namespace cbison


/-! ## Buffers and elementary C++ operations -/

/-- A caller-owned buffer of exactly `k` cells (bytes or 32-bit words). -/
abbrev Buf (k : Nat) : Type := { l : List Nat // l.length = k }

/-- Models `std::vector<T> v(k)`: `k` value-initialised (zero) cells. -/
def Buf.zeros (k : Nat) : Buf k := ⟨List.replicate k 0, by simp⟩

/-- Models `std::vector::resize(n)` on the contents of a vector: keeps the first `n`
cells when shrinking, appends zero cells when growing. -/
def resize (v : List Nat) (n : Nat) : List Nat :=
  v.take n ++ List.replicate (n - v.length) 0

/-- Models `std::vector::resize(n)` seen as a buffer of the new capacity. -/
def Buf.resize {k : Nat} (b : Buf k) (n : Nat) : Buf n :=
  ⟨cbison.resize b.val n, by
    have h := b.property
    simp only [cbison.resize, List.length_append, List.length_take, List.length_replicate]
    omega⟩

/-- Models `std::string(const char *)`: the bytes before the first NUL. -/
def cstr (buf : List Nat) : List Nat := buf.takeWhile (fun c => c != 0)

/-- Models `std::string(buf)` for a `char` array `buf` of known size: the bytes
before the first NUL.  When the array holds no NUL the constructor reads past
its end, which is undefined: `none`. -/
def stringOfArray (buf : List Nat) : Option (List Nat) :=
  if 0 ∈ buf then some (cstr buf) else none

/-- Conversion of an unsigned value to `int` (32-bit two's complement). -/
def toInt32 (n : Nat) : Int :=
  if n % 2 ^ 32 < 2 ^ 31 then ((n % 2 ^ 32 : Nat) : Int) else ((n % 2 ^ 32 : Nat) : Int) - 2 ^ 32

/-- Models `std::memcpy(dst, src, n)` on the contents of the destination: the first
`n` cells are replaced by the first `n` cells of the source. -/
def memcpy (dst src : List Nat) (n : Nat) : List Nat :=
  src.take n ++ dst.drop n

/-! ## The ABI records (`cbison_api.h`) -/

/-- Modelled from the spec: one element of the request array of
`compute_masks` (`cbison_mask_req_t` of the absent `cbison_api.h`), as
`Factory::computeMasks` fills it: a raw matcher handle and a destination
pointer. -/
structure cbison_mask_req where
  /-- Raw matcher handle. -/
  matcher : Nat
  /-- Destination pointer, counted in 32-bit words. -/
  mask_dest : Nat
  deriving DecidableEq, Repr

/-- Memory reachable through `uint32_t *` destination pointers: word address to
word value.  A mask is handled as the `mask_byte_len / 4` words that
`Matcher::computeMask` exposes. -/
abbrev Mem : Type := Nat → Nat

/-- Modelled from the spec: the factory ABI record (`struct cbison_factory` of
the absent `cbison_api.h`), restricted to the members the embedded functions
use, with the signatures of their call sites in `cbison_factory.cpp` and
`cbison.hpp`.  The `api`/`f_` self argument of each call is the record
itself. -/
structure cbison_factory (σ : Type) where
  /-- Member `n_vocab`. -/
  n_vocab : Nat
  /-- Member `mask_byte_len`. -/
  mask_byte_len : Nat
  /-- Member `compute_mask(m, mask_dest, mask_dest_len)`: the destination has `k`
  words, `mask_dest_len` is in bytes. -/
  compute_mask : σ → Nat → (k : Nat) → Buf k → Nat → Int × Buf k × σ
  /-- Member `compute_ff_tokens(m, output, output_len)`. -/
  compute_ff_tokens : σ → Nat → (k : Nat) → Buf k → Int × Buf k × σ
  /-- Member `validate_grammar(f, type, grammar, message, message_len)`. -/
  validate_grammar : σ → List Nat → List Nat → (k : Nat) → Buf k → Int × Buf k × σ
  /-- Member `reset(m)`, optional. -/
  reset : Option (σ → Nat → Int × σ)
  /-- Member `rollback(m, n)`, optional. -/
  rollback : Option (σ → Nat → Nat → Int × σ)
  /-- Member `compute_masks(f, reqs, n_reqs)`, optional; it writes through the
  destination pointers of the requests. -/
  compute_masks : Option (σ → List cbison_mask_req → Nat → Mem → Int × Mem × σ)

/-- Modelled from the spec: the tokenizer ABI record (`struct cbison_tokenizer`
of the absent `cbison_api.h`), restricted to the members the embedded
functions use, with the signatures of their call sites. -/
structure cbison_tokenizer (σ : Type) where
  /-- Member `n_vocab`. -/
  n_vocab : Nat
  /-- Member `eos_token_id`. -/
  eos_token_id : Nat
  /-- Member `tokenize_bytes_requires_utf8`. -/
  tokenize_bytes_requires_utf8 : Bool
  /-- Member `get_token(api, token_id, bytes, bytes_len)`. -/
  get_token : σ → Nat → (k : Nat) → Buf k → Int × Buf k × σ
  /-- Member `is_special_token(api, token_id)`. -/
  is_special_token : σ → Nat → Int × σ
  /-- Member `tokenize_bytes(api, bytes, bytes_len, output_tokens, output_tokens_len)`,
  optional. -/
  tokenize_bytes : Option (σ → List Nat → (k : Nat) → Buf k → Nat × Buf k × σ)

/-! ## `Matcher` and `Factory`: calls into the engine (`cbison_factory.cpp`) -/

/-- Models `Matcher::computeMask`. -/
def Matcher.computeMask {σ : Type} (api_ : cbison_factory σ) (m_ : Nat) (s : σ) :
    List Nat × σ :=
  let bytes := api_.mask_byte_len
  let words := bytes / 4
  let mask : Buf words := Buf.zeros words
  match api_.compute_mask s m_ words mask bytes with
  | (_, mask, s) => (mask.val, s)

/-- Models `Matcher::computeFFTokens`. -/
def Matcher.computeFFTokens {σ : Type} (api_ : cbison_factory σ) (m_ : Nat)
    (max_tokens : Nat) (s : σ) : List Nat × σ :=
  let buf : Buf max_tokens := Buf.zeros max_tokens
  match api_.compute_ff_tokens s m_ max_tokens buf with
  | (n, buf, s) =>
    if n < 0 then ([], s)
    else (resize buf.val n.toNat, s)

/-- Models `Matcher::reset` (`cbison.hpp`). -/
def Matcher.reset {σ : Type} (api_ : cbison_factory σ) (m_ : Nat) (s : σ) : Int × σ :=
  match api_.reset with
  | some reset => reset s m_
  | none => (-1, s)

/-- Models `Matcher::rollback`. -/
def Matcher.rollback {σ : Type} (api_ : cbison_factory σ) (m_ : Nat) (n : Nat) (s : σ) :
    Int × σ :=
  match api_.rollback with
  | some rollback => rollback s m_ n
  | none => (-1, s)

/-- Models `Factory::validateGrammar`.  The engine receives `type.c_str()` and
`grammar.c_str()`, the C strings of the two arguments.  The local
`char buf[16 * 1024]` is not initialised: its contents before the call are the
arbitrary `buf0`.  The result is `none` when `std::string(buf)` reads past the
array. -/
def Factory.validateGrammar {σ : Type} (f_ : cbison_factory σ) (type grammar : List Nat)
    (buf0 : Buf (16 * 1024)) (s : σ) : Option ((Bool × List Nat) × σ) :=
  match f_.validate_grammar s (cstr type) (cstr grammar) (16 * 1024) buf0 with
  | (r, buf, s) =>
    if r = 0 then some ((true, []), s)
    else
      match stringOfArray buf.val with
      | some msg => some ((decide (r ≥ 0), msg), s)
      | none => none

/-- The loop of `Factory::computeMasks` from index `i` on: `c[i].matcher =
reqs[i].first->get(); c[i].mask_dest = reqs[i].second`. -/
def Factory.computeMasks.fill (reqs : List (Nat × Nat)) :
    Nat → Nat → List cbison_mask_req → List cbison_mask_req
  | 0, _, c => c
  | fuel + 1, i, c =>
    if i < reqs.length then
      Factory.computeMasks.fill reqs fuel (i + 1)
        (c.set i ⟨(reqs.getD i (0, 0)).1, (reqs.getD i (0, 0)).2⟩)
    else c

/-- Models `Factory::computeMasks`.  A request is the pair of `reqs[i].first->get()`
(the raw handle the pointed-to `Matcher` holds) and the destination pointer
`reqs[i].second`. -/
def Factory.computeMasks {σ : Type} (f_ : cbison_factory σ) (reqs : List (Nat × Nat))
    (mem : Mem) (s : σ) : Int × Mem × σ :=
  let n := reqs.length
  let c := Factory.computeMasks.fill reqs n 0 (List.replicate n ⟨0, 0⟩)
  match f_.compute_masks with
  | some compute_masks => compute_masks s c n mem
  | none => (-1, mem, s)

/-! ## `Tokenizer`: calls into the engine (`cbison_factory.cpp`) -/

/-- Models `Tokenizer::getToken`. -/
def Tokenizer.getToken {σ : Type} (t_ : cbison_tokenizer σ) (token_id : Nat) (s : σ) :
    List Nat × σ :=
  let est_len := 32
  let buf : Buf est_len := Buf.zeros est_len
  match t_.get_token s token_id est_len buf with
  | (n, buf, s) =>
    if n < 0 then ([], s)
    else if n.toNat > est_len then
      let buf : Buf n.toNat := buf.resize n.toNat
      match t_.get_token s token_id n.toNat buf with
      | (n, buf, s) =>
        if n < 0 then ([], s)
        else (resize buf.val n.toNat, s)
    else (resize buf.val n.toNat, s)

/-- Models `Tokenizer::tokenizeBytes`. -/
def Tokenizer.tokenizeBytes {σ : Type} (t_ : cbison_tokenizer σ) (bytes : List Nat) (s : σ) :
    List Nat × σ :=
  match t_.tokenize_bytes with
  | none => ([], s)
  | some tokenize_bytes =>
    let est_tokens := bytes.length + 1
    let out : Buf est_tokens := Buf.zeros est_tokens
    match tokenize_bytes s bytes est_tokens out with
    | (n, out, s) => (resize out.val n, s)

/-! ## `CppTokenizer`: the outbound adapter (`cbison_tokenizer.cpp`) -/

/-- Models `std::memcpy` into a caller buffer of capacity `k`, for a length within
both the buffer and the source. -/
def Buf.memcpy {k : Nat} (dst : Buf k) (src : List Nat) (n : Nat)
    (h : n ≤ k ∧ n ≤ src.length) : Buf k :=
  ⟨cbison.memcpy dst.val src n, by
    have hd := dst.property
    simp only [cbison.memcpy, List.length_append, List.length_take, List.length_drop]
    omega⟩

/-- Models `class CppTokenizer` (`cbison.hpp`): the metadata members, the intrusive
reference count and the three pure virtual methods an implementation
supplies.  The methods are `const`, hence functions of their argument. -/
structure CppTokenizer where
  /-- Member `n_vocab` (`size_t`). -/
  n_vocab : Nat
  /-- Member `eos_token_id`. -/
  eos_token_id : Nat
  /-- Member `tokenize_bytes_requires_utf8`. -/
  tokenize_bytes_requires_utf8 : Bool
  /-- Member `std::atomic<int> ref_count_`. -/
  ref_count_ : Int
  /-- Member `virtual getToken`. -/
  getToken : Nat → List Nat
  /-- Member `virtual isSpecialToken`. -/
  isSpecialToken : Nat → Bool
  /-- Member `virtual tokenizeBytes`. -/
  tokenizeBytes : List Nat → List Nat

/-- Models `CppTokenizer::CppTokenizer(vocab, eos, utf8_required)` for an implementation
with the given virtual methods; `ref_count_{1}` is the member initialiser. -/
def CppTokenizer.new (vocab eos : Nat) (utf8_required : Bool) (getToken : Nat → List Nat)
    (isSpecialToken : Nat → Bool) (tokenizeBytes : List Nat → List Nat) : CppTokenizer :=
  { n_vocab := vocab, eos_token_id := eos, tokenize_bytes_requires_utf8 := utf8_required,
    ref_count_ := 1, getToken := getToken, isSpecialToken := isSpecialToken,
    tokenizeBytes := tokenizeBytes }

/-- Models `CppTokenizer::get_token_trampoline`.  `bytes` is `none` for a null pointer
and otherwise the `bytes_len` cells it points to; the result is the returned
`int` and the cells after the call. -/
def CppTokenizer.get_token_trampoline (self : CppTokenizer) (token_id : Nat)
    (bytes_len : Nat) (bytes : Option (Buf bytes_len)) : Int × Option (Buf bytes_len) :=
  let tok := self.getToken token_id
  let n := tok.length
  match bytes with
  | some b =>
    if bytes_len ≠ 0 then
      (toInt32 n, some (b.memcpy tok (min bytes_len n)
        ⟨Nat.min_le_left _ _, Nat.min_le_right _ _⟩))
    else (toInt32 n, some b)
  | none => (toInt32 n, none)

/-- Models `CppTokenizer::is_special_token_trampoline`.  The second component lists
the token ids `isSpecialToken` was called with. -/
def CppTokenizer.is_special_token_trampoline (self : CppTokenizer) (token_id : Nat) :
    Int × List Nat :=
  if token_id ≥ self.n_vocab then (-1, [])
  else (if self.isSpecialToken token_id then 1 else 0, [token_id])

/-- Models `CppTokenizer::tokenize_bytes_trampoline`.  `bytes` is
`std::string(bytes, bytes_len)`; `output_tokens` is `none` for a null pointer
and otherwise the `output_tokens_len` cells it points to. -/
def CppTokenizer.tokenize_bytes_trampoline (self : CppTokenizer) (bytes : List Nat)
    (output_tokens_len : Nat) (output_tokens : Option (Buf output_tokens_len)) :
    Nat × Option (Buf output_tokens_len) :=
  let toks := self.tokenizeBytes bytes
  match output_tokens with
  | some out =>
    if output_tokens_len ≠ 0 then
      (toks.length, some (out.memcpy toks (min output_tokens_len toks.length)
        ⟨Nat.min_le_left _ _, Nat.min_le_right _ _⟩))
    else (toks.length, some out)
  | none => (toks.length, none)

/-- Models `CppTokenizer::c_api`: the record the constructor fills, seen from a
caller that passes non-null buffers.  The engine state is the adapter object
the trampolines recover from `impl_data` through `fromC`, whose two magic
assertions hold for the record the constructor fills. -/
def CppTokenizer.c_api (self : CppTokenizer) : cbison_tokenizer CppTokenizer :=
  { n_vocab := self.n_vocab
    eos_token_id := self.eos_token_id
    tokenize_bytes_requires_utf8 := self.tokenize_bytes_requires_utf8
    get_token := fun self token_id k bytes =>
      match self.get_token_trampoline token_id k (some bytes) with
      | (n, some b) => (n, b, self)
      | (n, none) => (n, bytes, self)
    is_special_token := fun self token_id =>
      ((self.is_special_token_trampoline token_id).1, self)
    tokenize_bytes := some (fun self bytes k out =>
      match self.tokenize_bytes_trampoline bytes k (some out) with
      | (n, some b) => (n, b, self)
      | (n, none) => (n, out, self)) }

/-- Models `class Tokenizer`: the one data member, the handle `t_`. -/
structure Tokenizer where
  /-- Member `cbison_tokenizer_t t_`. -/
  t_ : Nat
  deriving DecidableEq, Repr

/-- A call through a tokenizer handle that `Tokenizer` makes for ownership. -/
inductive TokCall where
  | incr_ref_count (t : Nat)
  | decr_ref_count (t : Nat)
  deriving DecidableEq, Repr

/-- Models `Tokenizer::Tokenizer(cbison_tokenizer_t t)`. -/
def Tokenizer.ctor (t : Nat) : Tokenizer × List TokCall :=
  (⟨t⟩, if t ≠ 0 then [TokCall.incr_ref_count t] else [])

/-- Models `Tokenizer::~Tokenizer()`. -/
def Tokenizer.dtor (self : Tokenizer) : List TokCall :=
  if self.t_ ≠ 0 then [TokCall.decr_ref_count self.t_] else []

/-- An operation of a program on `Tokenizer` objects; objects are named by
their position in the store, in order of construction. -/
inductive TokOp where
  /-- Statement `Tokenizer x(t);` -/
  | construct (t : Nat)
  /-- Statement `Tokenizer x(std::move(o));` -/
  | moveConstruct (o : Nat)
  /-- Statement `self = std::move(o);` -/
  | moveAssign (self o : Nat)
  /-- The end of the lifetime of `self`. -/
  | destroy (self : Nat)
  deriving DecidableEq, Repr

/-- The store of `Tokenizer` objects (`none` once destroyed) and the
reference-count calls made so far. -/
structure TokWorld where
  /-- The objects, by name. -/
  objs : List (Option Tokenizer)
  /-- The calls made, oldest first. -/
  calls : List TokCall
  deriving DecidableEq, Repr

/-- The object named `x`, when it is alive. -/
def TokWorld.live (w : TokWorld) (x : Nat) : Option Tokenizer :=
  (w.objs.get? x).join

/-- One operation.  `none` when the program is ill-formed: it names an object
that was never constructed or is already destroyed. -/
def TokWorld.step (w : TokWorld) : TokOp → Option TokWorld
  | TokOp.construct t =>
    match Tokenizer.ctor t with
    | (x, cs) => some ⟨w.objs ++ [some x], w.calls ++ cs⟩
  | TokOp.moveConstruct o =>
    -- `Tokenizer(Tokenizer &&o) : t_(o.t_) { o.t_ = nullptr; }`
    match w.live o with
    | some src => some ⟨w.objs.set o (some ⟨0⟩) ++ [some ⟨src.t_⟩], w.calls⟩
    | none => none
  | TokOp.moveAssign self o =>
    match w.live self, w.live o with
    | some a, some b =>
      -- `if (t_) t_->decr_ref_count(t_);`
      let cs := if a.t_ ≠ 0 then [TokCall.decr_ref_count a.t_] else []
      -- `t_ = o.t_;`
      let objs := w.objs.set self (some ⟨b.t_⟩)
      -- `o.t_ = nullptr;`
      let objs := objs.set o (some ⟨0⟩)
      some ⟨objs, w.calls ++ cs⟩
    | _, _ => none
  | TokOp.destroy self =>
    match w.live self with
    | some a => some ⟨w.objs.set self none, w.calls ++ a.dtor⟩
    | none => none

/-- A program: its operations in order. -/
def TokWorld.run (w : TokWorld) : List TokOp → Option TokWorld
  | [] => some w
  | op :: ops =>
    match w.step op with
    | some w => w.run ops
    | none => none

/-- Every object of the store has been destroyed. -/
def TokWorld.allDestroyed (w : TokWorld) : Bool :=
  w.objs.all (fun x => x.isNone)

/-- The ownership invariant of the `Tokenizer` wrappers: for each non-null
handle, increments made are the decrements made plus the live wrappers that
hold it; no call is made through a null handle. -/
def TokWorld.balanced (w : TokWorld) : Prop :=
  ∀ t : Nat,
    w.calls.count (TokCall.incr_ref_count t) =
      w.calls.count (TokCall.decr_ref_count t) +
        (if t = 0 then 0 else w.objs.count (some ⟨t⟩))

/-! ## `Factory`: ownership of the handle (`cbison.hpp`, `cbison_factory.cpp`)

`class Factory` declares a converting constructor and a destructor and no
copy or move member.  C++ then declares the copy constructor and the copy
assignment operator implicitly, as member-wise copies, and declares no move
operation (a move request selects the copy). -/

/-- Models `class Factory`: the one data member, the handle `f_`. -/
structure Factory where
  /-- Member `cbison_factory_t f_`. -/
  f_ : Nat
  deriving DecidableEq, Repr

/-- Models `Factory::Factory(const void *addr)`. -/
def Factory.ctor (addr : Nat) : Factory := ⟨addr⟩

/-- Models `Factory::~Factory()`: the handles passed to `free_factory`. -/
def Factory.dtor (self : Factory) : List Nat :=
  if self.f_ ≠ 0 then [self.f_] else []

/-- The implicitly-declared `Factory(const Factory &)`. -/
def Factory.copyCtor (o : Factory) : Factory := ⟨o.f_⟩

/-- The implicitly-declared `Factory &operator=(const Factory &)`. -/
def Factory.copyAssign (_self o : Factory) : Factory := ⟨o.f_⟩

/-- An operation the `Factory` class permits; objects are named by their
position in the store, in order of construction. -/
inductive FactoryOp where
  /-- Statement `Factory x(addr);` -/
  | construct (addr : Nat)
  /-- Statement `Factory x(o);` (also `Factory x(std::move(o));`) -/
  | copyConstruct (o : Nat)
  /-- Statement `self = o;` (also `self = std::move(o);`) -/
  | copyAssign (self o : Nat)
  /-- The end of the lifetime of `self`. -/
  | destroy (self : Nat)
  deriving DecidableEq, Repr

/-- The store of `Factory` objects (`none` once destroyed) and the handles
passed to `free_factory` so far. -/
structure FactoryWorld where
  /-- The objects, by name. -/
  objs : List (Option Factory)
  /-- The handles passed to `free_factory`, oldest first. -/
  freed : List Nat
  deriving DecidableEq, Repr

/-- The object named `x`, when it is alive. -/
def FactoryWorld.live (w : FactoryWorld) (x : Nat) : Option Factory :=
  (w.objs.get? x).join

/-- One operation; `none` when it names an object that is not alive. -/
def FactoryWorld.step (w : FactoryWorld) : FactoryOp → Option FactoryWorld
  | FactoryOp.construct addr => some ⟨w.objs ++ [some (Factory.ctor addr)], w.freed⟩
  | FactoryOp.copyConstruct o =>
    match w.live o with
    | some src => some ⟨w.objs ++ [some (Factory.copyCtor src)], w.freed⟩
    | none => none
  | FactoryOp.copyAssign self o =>
    match w.live self, w.live o with
    | some a, some b => some ⟨w.objs.set self (some (Factory.copyAssign a b)), w.freed⟩
    | _, _ => none
  | FactoryOp.destroy self =>
    match w.live self with
    | some a => some ⟨w.objs.set self none, w.freed ++ a.dtor⟩
    | none => none

/-- A program: its operations in order. -/
def FactoryWorld.run (w : FactoryWorld) : List FactoryOp → Option FactoryWorld
  | [] => some w
  | op :: ops =>
    match w.step op with
    | some w => w.run ops
    | none => none

/-- Every object of the store has been destroyed. -/
def FactoryWorld.allDestroyed (w : FactoryWorld) : Bool :=
  w.objs.all (fun x => x.isNone)

/-! ## Destination rows in memory (batch mask computation) -/

/-- The `words` words at destination pointer `p`. -/
def readRow (mem : Mem) (p words : Nat) : List Nat :=
  (List.range words).map (fun i => mem (p + i))

/-- Memory after `row` has been stored at destination pointer `p`. -/
def writeRow (mem : Mem) (p : Nat) (row : List Nat) : Mem :=
  fun a => if p ≤ a ∧ a < p + row.length then row.getD (a - p) 0 else mem a

/-- The claim's wording of a batch-consistent engine: memory after
`compute_masks` has, request after request, stored at the request's
destination what `compute_mask` writes for the request's matcher (the mask
`Matcher::computeMask` returns in engine state `s`), and nothing else. -/
def writeMasks {σ : Type} (f_ : cbison_factory σ) (s : σ) (c : List cbison_mask_req)
    (mem : Mem) : Mem :=
  c.foldl (fun mem r => writeRow mem r.mask_dest (Matcher.computeMask f_ r.matcher s).1) mem

/-- The destination rows of the requests, each `words` long, do not overlap
one another. -/
def rowsDisjoint (words : Nat) (reqs : List (Nat × Nat)) : Prop :=
  reqs.Pairwise (fun a b => a.2 + words ≤ b.2 ∨ b.2 + words ≤ a.2)


/-! ## Concrete engines and adapters used to exercise the embedding -/

/-- An engine over a trivial state whose `compute_ff_tokens` stores token id
`7` in every cell of the output buffer and reports `n` tokens; batching,
`reset` and `rollback` are absent. -/
def ffEngine (n : Int) : cbison_factory Unit :=
  { n_vocab := 64
    mask_byte_len := 8
    compute_mask := fun s _ _ buf _ => (0, buf, s)
    compute_ff_tokens := fun s _ k _ => (n, ⟨List.replicate k 7, by simp⟩, s)
    validate_grammar := fun s _ _ _ buf => (0, buf, s)
    reset := none
    rollback := none
    compute_masks := none }

/-- An adapter implementation over 256 byte tokens whose `tokenizeBytes` emits
every input byte twice and whose `getToken` is the byte itself repeated
`token_id` times. -/
def doublingTokenizer : CppTokenizer :=
  CppTokenizer.new 256 255 false (fun token_id => List.replicate token_id (token_id % 256))
    (fun token_id => token_id == 255) (fun input => input.flatMap (fun b => [b, b]))

/-- An engine over a trivial state with one-word masks: the mask of matcher
`m` is the word `m`, and `compute_masks` stores, request after request, that
word at the request's destination. -/
def seqEngine : cbison_factory Unit :=
  { n_vocab := 32
    mask_byte_len := 4
    compute_mask := fun s m k _ _ => (0, ⟨List.replicate k m, by simp⟩, s)
    compute_ff_tokens := fun s _ _ buf => (0, buf, s)
    validate_grammar := fun s _ _ _ buf => (0, buf, s)
    reset := none
    rollback := none
    compute_masks := some (fun s c _ mem =>
      (0, c.foldl (fun mem r => writeRow mem r.mask_dest [r.matcher]) mem, s)) }

/-- An engine over a trivial state whose `validate_grammar` returns the code
`r` and leaves in the message buffer the bytes `msg` followed by the byte
`fill` up to the end of the buffer: a NUL-terminated message when `fill` is
`0`, no NUL at all when neither `msg` nor `fill` holds one. -/
def diagEngine (r : Int) (msg : List Nat) (fill : Nat) : cbison_factory Unit :=
  { n_vocab := 64
    mask_byte_len := 8
    compute_mask := fun s _ _ buf _ => (0, buf, s)
    compute_ff_tokens := fun s _ _ buf => (0, buf, s)
    validate_grammar := fun s _ _ k _ =>
      (r, ⟨(msg ++ List.replicate k fill).take k, by simp⟩, s)
    reset := none
    rollback := none
    compute_masks := none }

/-! ## `Factory`: the vocabulary metadata (`cbison.hpp`) -/

/-- Models `Factory::nVocab`: the record's `n_vocab`. -/
def Factory.nVocab {σ : Type} (f_ : cbison_factory σ) : Nat := f_.n_vocab

/-- Models `Factory::maskByteLen`: the record's `mask_byte_len`. -/
def Factory.maskByteLen {σ : Type} (f_ : cbison_factory σ) : Nat := f_.mask_byte_len

/-- The formula in the comment on `Factory::maskByteLen` and in the claim,
`ceil(n_vocab / 32) * 4`. -/
def ceilMaskByteLen (n_vocab : Nat) : Nat := (n_vocab + 31) / 32 * 4

/-- An engine record over a trivial state for 33 tokens whose `mask_byte_len`
is 6; `compute_mask` leaves the destination as it is. -/
def oddMaskEngine : cbison_factory Unit :=
  { n_vocab := 33
    mask_byte_len := 6
    compute_mask := fun s _ _ buf _ => (0, buf, s)
    compute_ff_tokens := fun s _ _ buf => (0, buf, s)
    validate_grammar := fun s _ _ _ buf => (0, buf, s)
    reset := none
    rollback := none
    compute_masks := none }
/-! ## `CbisonEngineDll`: the loader (`cbison_loader.cpp`)

Strings (`std::string`, `std::filesystem::path` in its native POSIX format)
are lists of bytes and may hold a NUL; a `const char *` argument is the
C string of the bytes before the first NUL (`cstr` of what `c_str()` points
to).  The platform is the `#else` branch of the file: `dlopen` and `dlsym`. -/

/-- The bytes of an ASCII string literal. -/
def str (s : String) : List Nat := s.toList.map Char.toNat

/-- Models `std::filesystem::path::filename`: the component after the last
directory separator `/`, empty when the path ends with one. -/
def filesystem.path.filename (p : List Nat) : List Nat :=
  (p.reverse.takeWhile (fun c => c != 47)).reverse

/-- The position of the last occurrence of byte `c`: `std::string::rfind`. -/
def rfind (c : Nat) (l : List Nat) : Option Nat :=
  if l.reverse.indexOf c < l.length then some (l.length - 1 - l.reverse.indexOf c) else none

/-- Models `std::filesystem::path::stem`: the filename without its extension.
The extension starts at the last period `.`; the filenames `.` and `..` and a
filename whose only period is its first character have none. -/
def filesystem.path.stem (p : List Nat) : List Nat :=
  let f := filesystem.path.filename p
  if f.length ≤ 2 ∧ f.head? = some 46 then f
  else
    match rfind 46 f with
    | none => f
    | some 0 => f
    | some pos => f.take pos

/-- Modelled from the spec: the platform loader and the entry points an engine
library exports, which `cbison_loader.cpp` reaches through `dlopen`, `dlsym`
and the function-pointer types `cbison_new_hf_tokenizer_fn_t`,
`cbison_new_factory_fn_t` and `cbison_new_byte_tokenizer_fn_t` of the absent
`cbison_api.h`.  A library handle and a symbol address are `Nat`s, `0` being
null; names are C strings; a call through an address runs engine code on the
engine state `σ`. -/
structure Platform (σ : Type) where
  /-- `dlopen(path, RTLD_NOW | RTLD_LOCAL)`. -/
  dlopen : List Nat → Nat
  /-- `dlsym(handle, name)`. -/
  dlsym : Nat → List Nat → Nat
  /-- `fn(tokenizer_json, options_json, err_buf, buf_len)` through an address
  cast to `cbison_new_hf_tokenizer_fn_t`. -/
  call_new_hf_tokenizer : Nat → σ → List Nat → List Nat → (k : Nat) → Buf k → Nat × Buf k × σ
  /-- `fn(tokenizer, options_json, err_buf, buf_len)` through an address cast to
  `cbison_new_factory_fn_t`. -/
  call_new_factory : Nat → σ → Nat → List Nat → (k : Nat) → Buf k → Nat × Buf k × σ
  /-- `fn()` through an address cast to `cbison_new_byte_tokenizer_fn_t`. -/
  call_new_byte_tokenizer : Nat → σ → Nat × σ

/-- Models `dl_load_library`: `dlopen(path.string().c_str(), ...)`. -/
def dl_load_library {σ : Type} (P : Platform σ) (path : List Nat) : Nat :=
  P.dlopen (cstr path)

/-- Models `dl_get_sym(void *handle, const char *name)`: `dlsym(handle, name)`. -/
def dl_get_sym {σ : Type} (P : Platform σ) (handle : Nat) (name : List Nat) : Nat :=
  P.dlsym handle name

/-- Models `class CbisonEngineDll`: the library handle and the symbol prefix. -/
structure CbisonEngineDll where
  /-- Member `void *handle_ = nullptr`. -/
  handle_ : Nat
  /-- Member `std::string prefix_`. -/
  prefix_ : List Nat
  deriving DecidableEq, Repr

/-- Models `CbisonEngineDll::get_sym`: `dl_get_sym(handle_, name.c_str())`. -/
def CbisonEngineDll.get_sym {σ : Type} (P : Platform σ) (self : CbisonEngineDll)
    (name : List Nat) : Nat :=
  dl_get_sym P self.handle_ (cstr name)

/-- Models `CbisonEngineDll::load`: the returned flag and the object after the
call; `pfx` is the parameter the source calls `prefix`. -/
def CbisonEngineDll.load {σ : Type} (P : Platform σ) (self : CbisonEngineDll)
    (path pfx : List Nat) : Bool × CbisonEngineDll :=
  let self := { self with handle_ := dl_load_library P path }
  if self.handle_ = 0 then (false, self)
  else if pfx ≠ [] then (true, { self with prefix_ := pfx })
  else (true, { self with prefix_ := filesystem.path.stem path })

/-- Models `CbisonEngineDll::new_hf_tokenizer`: the returned tokenizer handle,
the out-parameter `error_string` after the call and the engine state. -/
def CbisonEngineDll.new_hf_tokenizer {σ : Type} (P : Platform σ) (self : CbisonEngineDll)
    (tokenizer_json options_json : List Nat) (s : σ) : Nat × List Nat × σ :=
  let sym := self.prefix_ ++ str "_cbison_new_hf_tokenizer"
  let fn := self.get_sym P sym
  if fn = 0 then (0, str "Missing symbol: " ++ sym, s)
  else
    let buf_len := 1024
    let err_buf : Buf buf_len := Buf.zeros buf_len
    match P.call_new_hf_tokenizer fn s (cstr tokenizer_json) (cstr options_json) buf_len
        err_buf with
    | (tok, err_buf, s) => (tok, cstr err_buf.val, s)

/-- Models `CbisonEngineDll::new_factory`: the returned factory handle, the
out-parameter `error_string` after the call and the engine state. -/
def CbisonEngineDll.new_factory {σ : Type} (P : Platform σ) (self : CbisonEngineDll)
    (tokenizer : Nat) (options_json : List Nat) (s : σ) : Nat × List Nat × σ :=
  let sym := self.prefix_ ++ str "_cbison_new_factory"
  let fn := self.get_sym P sym
  if fn = 0 then (0, str "Missing symbol: " ++ sym, s)
  else
    let buf_len := 1024
    let err_buf : Buf buf_len := Buf.zeros buf_len
    match P.call_new_factory fn s tokenizer (cstr options_json) buf_len err_buf with
    | (factory, err_buf, s) => (factory, cstr err_buf.val, s)

/-- Models `CbisonEngineDll::new_byte_tokenizer`: the returned tokenizer handle
and the engine state. -/
def CbisonEngineDll.new_byte_tokenizer {σ : Type} (P : Platform σ) (self : CbisonEngineDll)
    (s : σ) : Nat × σ :=
  let sym := self.prefix_ ++ str "_cbison_new_byte_tokenizer"
  let fn := self.get_sym P sym
  if fn = 0 then (0, s) else P.call_new_byte_tokenizer fn s

/-- A platform that loads every library as handle `1` and exports no symbol
but the one named `a`, at address `5`; the engine state counts the calls made
through an address, and every constructor called returns handle `42`. -/
def onlySymbolA : Platform Nat :=
  { dlopen := fun _ => 1
    dlsym := fun _ name => if name = str "a" then 5 else 0
    call_new_hf_tokenizer := fun _ s _ _ _ buf => (42, buf, s + 1)
    call_new_factory := fun _ s _ _ _ buf => (42, buf, s + 1)
    call_new_byte_tokenizer := fun _ s => (42, s + 1) }
/-! ## `Matcher`: ownership of the handle (`cbison_factory.cpp`)

As for `Tokenizer`, the special member functions run on a store of wrapper
objects.  The store also remembers every handle a constructor was given. -/

/-- Models `class Matcher`: the data members `api_` and `m_`. -/
structure Matcher where
  /-- Member `cbison_factory_t api_`. -/
  api_ : Nat
  /-- Member `cbison_matcher_t m_`. -/
  m_ : Nat
  deriving DecidableEq, Repr

/-- Models `Matcher::Matcher(cbison_factory_t api, cbison_matcher_t m)`. -/
def Matcher.ctor (api m : Nat) : Matcher := ⟨api, m⟩

/-- Models `Matcher::~Matcher()`: the handles passed to `api_->free_matcher`. -/
def Matcher.dtor (self : Matcher) : List Nat :=
  if self.m_ ≠ 0 then [self.m_] else []

/-- An operation of a program on `Matcher` objects; objects are named by their
position in the store, in order of construction. -/
inductive MatcherOp where
  /-- Statement `Matcher x(api, m);` -/
  | construct (api m : Nat)
  /-- Statement `Matcher x = self.clone();` where `api_->clone_matcher(m_)`
  returned `c`. -/
  | clone (self c : Nat)
  /-- Statement `Matcher x(std::move(o));` -/
  | moveConstruct (o : Nat)
  /-- Statement `self = std::move(o);` -/
  | moveAssign (self o : Nat)
  /-- The end of the lifetime of `self`. -/
  | destroy (self : Nat)
  deriving DecidableEq, Repr

/-- The store of `Matcher` objects (`none` once destroyed), the handles passed
to `free_matcher` so far and the handles given to the constructor so far. -/
structure MatcherWorld where
  /-- The objects, by name. -/
  objs : List (Option Matcher)
  /-- The handles passed to `free_matcher`, oldest first. -/
  freed : List Nat
  /-- The handles wrapped by `Matcher(api, m)`, oldest first. -/
  wrapped : List Nat
  deriving DecidableEq, Repr

/-- The object named `x`, when it is alive. -/
def MatcherWorld.live (w : MatcherWorld) (x : Nat) : Option Matcher :=
  (w.objs.get? x).join

/-- One operation; `none` when it names an object that is not alive. -/
def MatcherWorld.step (w : MatcherWorld) : MatcherOp → Option MatcherWorld
  | MatcherOp.construct api m =>
    some ⟨w.objs ++ [some (Matcher.ctor api m)], w.freed, w.wrapped ++ [m]⟩
  | MatcherOp.clone self c =>
    -- `auto c = api_->clone_matcher(m_); return Matcher(api_, c);`
    match w.live self with
    | some a => some ⟨w.objs ++ [some (Matcher.ctor a.api_ c)], w.freed, w.wrapped ++ [c]⟩
    | none => none
  | MatcherOp.moveConstruct o =>
    -- `Matcher(Matcher &&o) : api_(o.api_), m_(o.m_) { o.m_ = nullptr; }`
    match w.live o with
    | some src =>
      some ⟨w.objs.set o (some ⟨src.api_, 0⟩) ++ [some ⟨src.api_, src.m_⟩], w.freed, w.wrapped⟩
    | none => none
  | MatcherOp.moveAssign self o =>
    match w.live self, w.live o with
    | some a, some b =>
      -- `if (m_) api_->free_matcher(m_);`
      let fs := if a.m_ ≠ 0 then [a.m_] else []
      -- `api_ = o.api_; m_ = o.m_;`
      let objs := w.objs.set self (some ⟨b.api_, b.m_⟩)
      -- `o.m_ = nullptr;`
      let objs := objs.set o (some ⟨b.api_, 0⟩)
      some ⟨objs, w.freed ++ fs, w.wrapped⟩
    | _, _ => none
  | MatcherOp.destroy self =>
    match w.live self with
    | some a => some ⟨w.objs.set self none, w.freed ++ a.dtor, w.wrapped⟩
    | none => none

/-- A program: its operations in order. -/
def MatcherWorld.run (w : MatcherWorld) : List MatcherOp → Option MatcherWorld
  | [] => some w
  | op :: ops =>
    match w.step op with
    | some w => w.run ops
    | none => none

/-- Every object of the store has been destroyed. -/
def MatcherWorld.allDestroyed (w : MatcherWorld) : Bool :=
  w.objs.all (fun x => x.isNone)

/-- Whether an entry of the store is a live wrapper that holds handle `h`. -/
def Matcher.holds (h : Nat) (x : Option Matcher) : Bool :=
  match x with
  | some a => a.m_ == h
  | none => false

/-- The number of live wrappers that hold handle `h`. -/
def MatcherWorld.holders (w : MatcherWorld) (h : Nat) : Nat :=
  w.objs.countP (Matcher.holds h)

/-- The claim's premise on the handles: no non-null handle is given to the
constructor twice (each raw handle is wrapped once and `clone_matcher` returns
a handle that was not wrapped before). -/
def MatcherWorld.wrappedOnce (w : MatcherWorld) : Prop :=
  (w.wrapped.filter (fun h => h != 0)).Nodup

/-- The ownership invariant of the `Matcher` wrappers: for each non-null
handle, the times it was freed plus the live wrappers that hold it are the
times it was wrapped; null is never freed. -/
def MatcherWorld.owned (w : MatcherWorld) : Prop :=
  ∀ h : Nat,
    w.freed.count h + (if h = 0 then 0 else w.holders h) =
      (if h = 0 then 0 else w.wrapped.count h)

/-! # Theorems -/

/-! ## `Factory::validateGrammar` -/

/-- A message followed by a NUL is the C string of the buffer that starts
with them. -/
theorem cstr_message (msg rest : List Nat) (h : 0 ∉ msg) : cstr (msg ++ 0 :: rest) = msg := by
  induction msg with
  | nil => simp [cstr]
  | cons a msg ih =>
    have ha : a ≠ 0 := fun h0 => h (by simp [h0])
    have hm : 0 ∉ msg := fun hm => h (List.mem_cons_of_mem _ hm)
    have := ih hm
    simp only [cstr] at this ⊢
    simp [List.takeWhile_cons, ha, this]

/-- A buffer whose first bytes are a message and a NUL starts with them. -/
theorem split_at_message (l msg : List Nat) (h : l.take (msg.length + 1) = msg ++ [0]) :
    l = msg ++ 0 :: l.drop (msg.length + 1) := by
  have h2 := (List.take_append_drop (msg.length + 1) l).symm
  rw [h] at h2
  simpa using h2

/-- The buffer `diagEngine` leaves holds no NUL when neither the message nor
the fill byte is one. -/
theorem diagEngine_no_nul (msg : List Nat) (fill k : Nat) (hm : 0 ∉ msg) (hf : fill ≠ 0) :
    0 ∉ (msg ++ List.replicate k fill).take k := by
  intro h
  have h2 := List.mem_of_mem_take h
  rcases List.mem_append.mp h2 with h3 | h3
  · exact hm h3
  · exact hf (List.eq_of_mem_replicate h3).symm

/-- On an engine that leaves no NUL in the message buffer and returns a
non-zero code, `Factory::validateGrammar` has no defined result. -/
theorem validateGrammar_diagEngine_unterminated (r : Int) (msg : List Nat) (fill : Nat)
    (type grammar : List Nat) (buf0 : Buf (16 * 1024)) (hr : r ≠ 0) (hm : 0 ∉ msg)
    (hf : fill ≠ 0) :
    Factory.validateGrammar (diagEngine r msg fill) type grammar buf0 () = none := by
  have hn := diagEngine_no_nul msg fill (16 * 1024) hm hf
  simp only [Factory.validateGrammar, diagEngine, hr, if_false, stringOfArray, if_neg hn]

/-- C1, as stated, fails for an engine that leaves no NUL in the message
buffer: with return code `-1` and 16384 non-NUL bytes in the buffer,
`std::string(buf)` reads past the end of the array, so the call has no
defined result and in particular not `(false, msg)` for a `msg` the buffer
holds. -/
theorem validateGrammar_unterminated_counterexample :
    ((diagEngine (-1) [98, 97, 100] 33).validate_grammar () (cstr [106]) (cstr [123])
        (16 * 1024) (Buf.zeros (16 * 1024))).1 = -1 ∧
    0 ∉ ((diagEngine (-1) [98, 97, 100] 33).validate_grammar () (cstr [106]) (cstr [123])
        (16 * 1024) (Buf.zeros (16 * 1024))).2.1.val ∧
    Factory.validateGrammar (diagEngine (-1) [98, 97, 100] 33) [106] [123]
        (Buf.zeros (16 * 1024)) () = none :=
  ⟨rfl, diagEngine_no_nul [98, 97, 100] 33 (16 * 1024) (by decide) (by decide),
    validateGrammar_diagEngine_unterminated (-1) [98, 97, 100] 33 [106] [123] _ (by decide)
      (by decide) (by decide)⟩

/-- C1, amended: `Factory::validateGrammar` keeps the engine's three-way
signal. The engine is called with the C strings of `type` and `grammar` and a
16 KiB buffer. With `r` the code it returns, the result is `(true, "")` when
`r = 0`, whatever the buffer holds; and when the engine leaves in the buffer a
message `msg` followed by a NUL, the result is `(false, msg)` when `r < 0` and
`(true, msg)` when `r > 0`. The engine state is the one the engine
returned. -/
theorem validateGrammar_three_way {σ : Type} (f_ : cbison_factory σ)
    (type grammar : List Nat) (buf0 : Buf (16 * 1024)) (s : σ) :
    ((f_.validate_grammar s (cstr type) (cstr grammar) (16 * 1024) buf0).1 = 0 →
      Factory.validateGrammar f_ type grammar buf0 s =
        some ((true, []),
          (f_.validate_grammar s (cstr type) (cstr grammar) (16 * 1024) buf0).2.2)) ∧
    (∀ msg rest : List Nat,
      (f_.validate_grammar s (cstr type) (cstr grammar) (16 * 1024) buf0).2.1.val =
        msg ++ 0 :: rest →
      0 ∉ msg →
      ((f_.validate_grammar s (cstr type) (cstr grammar) (16 * 1024) buf0).1 < 0 →
        Factory.validateGrammar f_ type grammar buf0 s =
          some ((false, msg),
            (f_.validate_grammar s (cstr type) (cstr grammar) (16 * 1024) buf0).2.2)) ∧
      ((f_.validate_grammar s (cstr type) (cstr grammar) (16 * 1024) buf0).1 > 0 →
        Factory.validateGrammar f_ type grammar buf0 s =
          some ((true, msg),
            (f_.validate_grammar s (cstr type) (cstr grammar) (16 * 1024) buf0).2.2))) := by
  rcases hcall : f_.validate_grammar s (cstr type) (cstr grammar) (16 * 1024) buf0 with
    ⟨r, buf, s1⟩
  simp only [Factory.validateGrammar, hcall]
  refine ⟨?_, ?_⟩
  · intro h0
    simp [h0]
  · intro msg rest hbuf hnul
    have hmem : 0 ∈ buf.val := by
      rw [hbuf]
      simp
    have hstr : stringOfArray buf.val = some msg := by
      simp only [stringOfArray, if_pos hmem]
      rw [hbuf, cstr_message msg rest hnul]
    refine ⟨?_, ?_⟩
    · intro hneg
      have h0 : r ≠ 0 := by omega
      have h1 : ¬ (r ≥ 0) := by omega
      simp [h0, hstr, h1]
    · intro hpos
      have h0 : r ≠ 0 := by omega
      have h1 : r ≥ 0 := by omega
      simp [h0, hstr, h1]

/-- Witness of C1: an engine that rejects the grammar with code `-1` and the
message `bad`, and one that accepts it with code `1` and the same message. -/
theorem validateGrammar_three_way_witness :
    Factory.validateGrammar (diagEngine (-1) [98, 97, 100] 0) [106] [123]
        (Buf.zeros (16 * 1024)) () = some ((false, [98, 97, 100]), ()) ∧
    Factory.validateGrammar (diagEngine 1 [98, 97, 100] 0) [106] [123]
        (Buf.zeros (16 * 1024)) () = some ((true, [98, 97, 100]), ()) ∧
    Factory.validateGrammar (diagEngine 0 [98, 97, 100] 33) [106] [123]
        (Buf.zeros (16 * 1024)) () = some ((true, []), ()) :=
  ⟨((validateGrammar_three_way (diagEngine (-1) [98, 97, 100] 0) [106] [123]
        (Buf.zeros (16 * 1024)) ()).2 [98, 97, 100] _
      (split_at_message _ [98, 97, 100] (by decide)) (by decide)).1 (by decide),
    ((validateGrammar_three_way (diagEngine 1 [98, 97, 100] 0) [106] [123]
        (Buf.zeros (16 * 1024)) ()).2 [98, 97, 100] _
      (split_at_message _ [98, 97, 100] (by decide)) (by decide)).2 (by decide),
    (validateGrammar_three_way (diagEngine 0 [98, 97, 100] 33) [106] [123]
        (Buf.zeros (16 * 1024)) ()).1 rfl⟩

/-! ## `Tokenizer::getToken` over the adapter -/

/-- A length below `2^31` survives the conversion to `int`. -/
theorem toInt32_of_lt {n : Nat} (h : n < 2 ^ 31) : toInt32 n = (n : Int) := by
  have h1 : n % 2 ^ 32 = n := Nat.mod_eq_of_lt (by omega)
  have h2 : n < 2147483648 := by omega
  simp only [toInt32, h1]
  simp [h2]

/-- The `get_token` member of `c_api()` on a non-null buffer of non-zero
capacity. -/
theorem c_api_get_token (self : CppTokenizer) (token_id k : Nat) (buf : Buf k) (hk : k ≠ 0) :
    self.c_api.get_token self token_id k buf =
      (toInt32 (self.getToken token_id).length,
        buf.memcpy (self.getToken token_id) (min k (self.getToken token_id).length)
          ⟨Nat.min_le_left _ _, Nat.min_le_right _ _⟩, self) := by
  simp [CppTokenizer.c_api, CppTokenizer.get_token_trampoline, hk]

/-- Copying a whole token into a buffer that can hold it and cutting the
buffer to the token length gives the token back. -/
theorem resize_memcpy_short (dst tok : List Nat) (h : tok.length ≤ dst.length) :
    resize (memcpy dst tok (min dst.length tok.length)) tok.length = tok := by
  simp [resize, memcpy, Nat.min_eq_right h, List.take_append_eq_append_take]

/-- The body of `Tokenizer::getToken` with its local constants substituted. -/
theorem getToken_unfold {σ : Type} (t_ : cbison_tokenizer σ) (token_id : Nat) (s : σ) :
    Tokenizer.getToken t_ token_id s =
      match t_.get_token s token_id 32 (Buf.zeros 32) with
      | (n, buf, s) =>
        if n < 0 then ([], s)
        else if n.toNat > 32 then
          match t_.get_token s token_id n.toNat (buf.resize n.toNat) with
          | (n, buf, s) =>
            if n < 0 then ([], s)
            else (resize buf.val n.toNat, s)
        else (resize buf.val n.toNat, s) := rfl

/-- The probe-and-retry of `Tokenizer::getToken` over an engine that reports
the same non-negative length `L` on both calls. -/
theorem getToken_of_length {σ : Type} (t_ : cbison_tokenizer σ) (token_id : Nat) (s : σ)
    (L : Nat) (w : (k : Nat) → Buf k → Buf k)
    (h : ∀ (k : Nat) (buf : Buf k), k ≠ 0 → t_.get_token s token_id k buf = ((L : Int), w k buf, s)) :
    Tokenizer.getToken t_ token_id s =
      (if L > 32 then resize (w L ((w 32 (Buf.zeros 32)).resize L)).val L
        else resize (w 32 (Buf.zeros 32)).val L, s) := by
  have hnn : ¬ ((L : Int) < 0) := by omega
  rw [getToken_unfold, h 32 (Buf.zeros 32) (by decide)]
  simp only [hnn, if_false]
  rw [Int.toNat_ofNat]
  by_cases hbig : L > 32
  · have hk : L ≠ 0 := by omega
    have h2 := h L ((w 32 (Buf.zeros 32)).resize L) hk
    rw [if_pos hbig, if_pos hbig]
    simp only [h2, hnn, if_false, Int.toNat_ofNat]
  · rw [if_neg hbig, if_neg hbig]

/-- C2: decode round trip across the two bridges. For an adapter whose
`getToken(token_id)` has fewer than `2^31` bytes, `Tokenizer::getToken` on a
`Tokenizer` wrapping the adapter's `c_api()` returns exactly those bytes (and
leaves the adapter as it was): with no byte, with at most 32 bytes after the
single probe, and with more than 32 bytes after the one retry. -/
theorem getToken_roundtrip (self : CppTokenizer) (token_id : Nat)
    (hL : (self.getToken token_id).length < 2 ^ 31) :
    Tokenizer.getToken self.c_api token_id self = (self.getToken token_id, self) := by
  have hn := toInt32_of_lt hL
  rw [getToken_of_length self.c_api token_id self (self.getToken token_id).length
    (fun k buf => buf.memcpy (self.getToken token_id) (min k (self.getToken token_id).length)
          ⟨Nat.min_le_left _ _, Nat.min_le_right _ _⟩)
    (fun k buf hk => by rw [c_api_get_token self token_id k buf hk, hn])]
  by_cases hbig : (self.getToken token_id).length > 32
  · simp [hbig, Buf.memcpy, resize, memcpy]
  · simp only [hbig, if_false]
    have := resize_memcpy_short (List.replicate 32 0) (self.getToken token_id) (by simp; omega)
    simpa [Buf.memcpy, Buf.zeros] using this

/-- Witness of C2: tokens of 0, 5 and 40 bytes (no byte, single probe, one
retry). -/
theorem getToken_roundtrip_witness :
    ((doublingTokenizer.getToken 0).length < 2 ^ 31 ∧
      (Tokenizer.getToken doublingTokenizer.c_api 0 doublingTokenizer).1 = []) ∧
    ((doublingTokenizer.getToken 5).length < 2 ^ 31 ∧
      (Tokenizer.getToken doublingTokenizer.c_api 5 doublingTokenizer).1 = [5, 5, 5, 5, 5]) ∧
    ((doublingTokenizer.getToken 40).length < 2 ^ 31 ∧
      (Tokenizer.getToken doublingTokenizer.c_api 40 doublingTokenizer).1 =
        List.replicate 40 40) := by
  have h0 : (doublingTokenizer.getToken 0).length < 2 ^ 31 := by decide
  have h5 : (doublingTokenizer.getToken 5).length < 2 ^ 31 := by decide
  have h40 : (doublingTokenizer.getToken 40).length < 2 ^ 31 := by decide
  refine ⟨⟨h0, ?_⟩, ⟨h5, ?_⟩, ⟨h40, ?_⟩⟩
  · rw [getToken_roundtrip doublingTokenizer 0 h0]; rfl
  · rw [getToken_roundtrip doublingTokenizer 5 h5]; rfl
  · rw [getToken_roundtrip doublingTokenizer 40 h40]; rfl

/-! ## `Tokenizer::tokenizeBytes` -/

/-- C3, the code at a failing input: the adapter that emits every byte twice,
asked through `Tokenizer::tokenizeBytes` for the two bytes `[65, 66]`. The
engine side reports 4 tokens and writes the 3 that fit the `L + 1 = 3` slots;
`out.resize(4)` then grows the vector, so the result has 4 elements, more
than `L + 1`, and its last element `0` was never written by the engine. -/
theorem tokenizeBytes_grows_past_buffer :
    (doublingTokenizer.tokenize_bytes_trampoline [65, 66] 3 (some (Buf.zeros 3))).1 = 4 ∧
    ((doublingTokenizer.tokenize_bytes_trampoline [65, 66] 3 (some (Buf.zeros 3))).2.map
      (fun b => b.val)) = some [65, 65, 66] ∧
    (Tokenizer.tokenizeBytes doublingTokenizer.c_api [65, 66] doublingTokenizer).1 =
      [65, 65, 66, 0] ∧
    ¬ ((Tokenizer.tokenizeBytes doublingTokenizer.c_api [65, 66] doublingTokenizer).1.length
      ≤ [65, 66].length + 1) := by
  refine ⟨by decide, by decide, by decide, by decide⟩

/-! ## The adapter's reference count -/

/-- C5: the classify-special-token trampoline is tri-state. It returns `-1`
exactly when `token_id >= n_vocab`; for an id inside the vocabulary it
returns `1` when `isSpecialToken(token_id)` holds and `0` when it does not;
and every id it hands to `isSpecialToken` is inside the vocabulary, none at
all being handed over for an out-of-range id. -/
theorem is_special_token_tri_state (self : CppTokenizer) (token_id : Nat) :
    ((self.is_special_token_trampoline token_id).1 = -1 ↔ token_id ≥ self.n_vocab) ∧
    (token_id < self.n_vocab →
      (self.is_special_token_trampoline token_id).1 =
        if self.isSpecialToken token_id then 1 else 0) ∧
    (token_id ≥ self.n_vocab → (self.is_special_token_trampoline token_id).2 = []) ∧
    (∀ id ∈ (self.is_special_token_trampoline token_id).2, id < self.n_vocab) := by
  unfold CppTokenizer.is_special_token_trampoline
  by_cases h : token_id ≥ self.n_vocab
  · have h2 : ¬ token_id < self.n_vocab := by omega
    simp [h, h2]
  · have h2 : token_id < self.n_vocab := by omega
    simp only [h, if_false, h2, true_and, false_implies, iff_false, forall_true_left]
    refine ⟨?_, ?_⟩
    · split <;> decide
    · intro id hid
      simp at hid
      omega

/-! ## Absent capabilities -/

/-- The loop of `Factory::computeMasks` fills the request array with the
mapped requests. -/
theorem fill_spec (reqs : List (Nat × Nat)) :
    ∀ (fuel i : Nat) (c : List cbison_mask_req), c.length = reqs.length →
      i + fuel = reqs.length →
      (∀ j, j < i → c.getD j ⟨0, 0⟩ = ⟨(reqs.getD j (0, 0)).1, (reqs.getD j (0, 0)).2⟩) →
      Factory.computeMasks.fill reqs fuel i c =
        reqs.map (fun r => (⟨r.1, r.2⟩ : cbison_mask_req)) := by
  intro fuel
  induction fuel with
  | zero =>
    intro i c hlen hi hpre
    simp only [Factory.computeMasks.fill]
    apply List.ext_getElem
    · simp [hlen]
    · intro j h1 h2
      have hj : j < i := by omega
      have := hpre j hj
      have hjr : j < reqs.length := by omega
      simp only [List.getD_eq_getElem?_getD, List.getElem?_eq_getElem h1,
        List.getElem?_eq_getElem hjr, Option.getD_some] at this
      simp [this]
  | succ fuel ih =>
    intro i c hlen hi hpre
    have hlt : i < reqs.length := by omega
    simp only [Factory.computeMasks.fill, hlt, if_true]
    apply ih
    · simp [hlen]
    · omega
    · intro j hj
      by_cases hji : j = i
      · subst hji
        have hjc : j < c.length := by omega
        simp [List.getD_eq_getElem?_getD, List.getElem?_set, hjc]
      · have hj2 : j < i := by omega
        have := hpre j hj2
        simp only [List.getD_eq_getElem?_getD] at this ⊢
        rw [List.getElem?_set_ne (by omega)]
        exact this

/-- The request array `Factory::computeMasks` builds: one request per element
of `reqs`, in order, pairing the raw matcher handle with the destination. -/
theorem computeMasks_requests (reqs : List (Nat × Nat)) :
    Factory.computeMasks.fill reqs reqs.length 0 (List.replicate reqs.length ⟨0, 0⟩) =
      reqs.map (fun r => (⟨r.1, r.2⟩ : cbison_mask_req)) :=
  fill_spec reqs reqs.length 0 _ (by simp) (by simp) (by intro j hj; omega)

/-- Absent capabilities give a defined neutral result and no call. With a null
`reset`, `rollback` or `compute_masks` pointer, `Matcher::reset`,
`Matcher::rollback(n)` and `Factory::computeMasks(reqs)` return `-1` for every
argument, leaving engine state and memory untouched; with a null
`tokenize_bytes`, `Tokenizer::tokenizeBytes` returns the empty sequence. With
the pointer present, the first three return exactly what the engine function
returns (for `computeMasks`, on the request array built from `reqs`). -/
theorem capability_absence {σ : Type} (f_ : cbison_factory σ) (t_ : cbison_tokenizer σ)
    (m_ n : Nat) (reqs : List (Nat × Nat)) (mem : Mem) (bytes : List Nat) (s : σ)
    (reset : σ → Nat → Int × σ) (rollback : σ → Nat → Nat → Int × σ)
    (compute_masks : σ → List cbison_mask_req → Nat → Mem → Int × Mem × σ) :
    Matcher.reset { f_ with reset := none } m_ s = (-1, s) ∧
    Matcher.rollback { f_ with rollback := none } m_ n s = (-1, s) ∧
    Factory.computeMasks { f_ with compute_masks := none } reqs mem s = (-1, mem, s) ∧
    Tokenizer.tokenizeBytes { t_ with tokenize_bytes := none } bytes s = ([], s) ∧
    Matcher.reset { f_ with reset := some reset } m_ s = reset s m_ ∧
    Matcher.rollback { f_ with rollback := some rollback } m_ n s = rollback s m_ n ∧
    Factory.computeMasks { f_ with compute_masks := some compute_masks } reqs mem s =
      compute_masks s (reqs.map (fun r => (⟨r.1, r.2⟩ : cbison_mask_req))) reqs.length mem := by
  refine ⟨rfl, rfl, rfl, rfl, rfl, rfl, ?_⟩
  simp only [Factory.computeMasks, computeMasks_requests]

/-- C6, the code at a failing input: with the `tokenize_bytes` pointer present,
`Tokenizer::tokenizeBytes` does not return what the engine function returns.
For the adapter that emits every byte twice and the three bytes `[1, 2, 3]`
the engine function reports 6 tokens and writes `[1, 1, 2, 2]` into the
4-slot buffer; the wrapper returns `[1, 1, 2, 2, 0, 0]`, which is neither the
ids the engine wrote nor the tokenizer's six tokens: its last two elements
were produced by `out.resize(6)`. -/
theorem tokenizeBytes_present_pads_zeros :
    doublingTokenizer.c_api.tokenize_bytes.isSome = true ∧
    doublingTokenizer.tokenizeBytes [1, 2, 3] = [1, 1, 2, 2, 3, 3] ∧
    (doublingTokenizer.tokenize_bytes_trampoline [1, 2, 3] 4 (some (Buf.zeros 4))).1 = 6 ∧
    ((doublingTokenizer.tokenize_bytes_trampoline [1, 2, 3] 4 (some (Buf.zeros 4))).2.map
      (fun b => b.val)) = some [1, 1, 2, 2] ∧
    (Tokenizer.tokenizeBytes doublingTokenizer.c_api [1, 2, 3] doublingTokenizer).1 =
      [1, 1, 2, 2, 0, 0] := by
  refine ⟨rfl, by decide, by decide, by decide, by decide⟩

/-! ## `Matcher::computeFFTokens` -/

/-- C7, as stated, fails: an engine that reports 3 forced tokens for a
2-slot buffer makes `Matcher::computeFFTokens(2)` return 3 elements, the two
cells of the buffer followed by a zero the engine never wrote. -/
theorem computeFFTokens_unbounded_counterexample :
    (Matcher.computeFFTokens (ffEngine 3) 1 2 ()).1 = [7, 7, 0] ∧
    ¬ ((Matcher.computeFFTokens (ffEngine 3) 1 2 ()).1.length ≤ 2) := by
  refine ⟨by decide, by decide⟩

/-- C7, amended: `Matcher::computeFFTokens(maxTokens)` for a count `n` the
engine returns with `n ≤ maxTokens`. The result is empty when `n < 0` or
`n = 0`, and otherwise is the first `n` token ids of the `maxTokens`-slot
buffer as the engine left it; so it has at most `maxTokens` elements. -/
theorem computeFFTokens_bounded {σ : Type} (api_ : cbison_factory σ) (m_ max_tokens : Nat)
    (s : σ)
    (h : (api_.compute_ff_tokens s m_ max_tokens (Buf.zeros max_tokens)).1 ≤ (max_tokens : Int)) :
    (Matcher.computeFFTokens api_ m_ max_tokens s).1 =
      (if (api_.compute_ff_tokens s m_ max_tokens (Buf.zeros max_tokens)).1 ≤ 0 then []
        else (api_.compute_ff_tokens s m_ max_tokens (Buf.zeros max_tokens)).2.1.val.take
          (api_.compute_ff_tokens s m_ max_tokens (Buf.zeros max_tokens)).1.toNat) ∧
    (Matcher.computeFFTokens api_ m_ max_tokens s).1.length ≤ max_tokens := by
  rcases hcall : api_.compute_ff_tokens s m_ max_tokens (Buf.zeros max_tokens) with ⟨n, buf, s1⟩
  rw [hcall] at h
  simp only [Matcher.computeFFTokens, hcall] at h ⊢
  have hlen := buf.property
  by_cases hneg : n < 0
  · have : n ≤ 0 := by omega
    simp [hneg, this]
  · have hle : n.toNat ≤ max_tokens := by omega
    have hsub : n.toNat - buf.val.length = 0 := by omega
    simp only [hneg, if_false, resize, hsub, List.replicate_zero, List.append_nil,
      List.length_take]
    refine ⟨?_, by omega⟩
    by_cases h0 : n ≤ 0
    · have : n.toNat = 0 := by omega
      simp [h0, this]
    · simp [h0]

/-- Witness of C7: an engine reporting 2 tokens for a 3-slot buffer. -/
theorem computeFFTokens_bounded_witness :
    (Matcher.computeFFTokens (ffEngine 2) 1 3 ()).1 = [7, 7] ∧
    (Matcher.computeFFTokens (ffEngine 2) 1 3 ()).1.length ≤ 3 := by
  have h := computeFFTokens_bounded (ffEngine 2) 1 3 () (by decide)
  refine ⟨?_, h.2⟩
  rw [h.1]
  decide

/-! ## `Factory::computeMasks` against `Matcher::computeMask` -/

/-- The vector `Matcher::computeMask` returns has `mask_byte_len / 4` words.
-/
theorem computeMask_length {σ : Type} (f_ : cbison_factory σ) (m_ : Nat) (s : σ) :
    (Matcher.computeMask f_ m_ s).1.length = f_.mask_byte_len / 4 := by
  simp only [Matcher.computeMask]
  exact (f_.compute_mask s m_ (f_.mask_byte_len / 4) (Buf.zeros _) f_.mask_byte_len).2.1.property

/-- Storing the masks of the requests leaves every word outside their rows as
it was. -/
theorem writeMasks_outside {σ : Type} (f_ : cbison_factory σ) (s : σ)
    (c : List cbison_mask_req) :
    ∀ (mem : Mem) (a : Nat),
      (∀ r ∈ c, ¬ (r.mask_dest ≤ a ∧ a < r.mask_dest + f_.mask_byte_len / 4)) →
      writeMasks f_ s c mem a = mem a := by
  induction c with
  | nil =>
    intro mem a _
    rfl
  | cons r c ih =>
    intro mem a h
    have hr := h r (List.mem_cons_self _ _)
    have := ih (writeRow mem r.mask_dest (Matcher.computeMask f_ r.matcher s).1) a
      (fun r1 hr1 => h r1 (List.mem_cons_of_mem _ hr1))
    simp only [writeMasks, List.foldl_cons] at this ⊢
    rw [this]
    simp only [writeRow, computeMask_length]
    rw [if_neg hr]

/-- With rows that do not overlap, each row holds the mask of its own request
after all masks are stored. -/
theorem writeMasks_row {σ : Type} (f_ : cbison_factory σ) (s : σ)
    (c : List cbison_mask_req) :
    ∀ (mem : Mem) (i : Nat) (hi : i < c.length) (k : Nat), k < f_.mask_byte_len / 4 →
      c.Pairwise (fun a b => a.mask_dest + f_.mask_byte_len / 4 ≤ b.mask_dest ∨
        b.mask_dest + f_.mask_byte_len / 4 ≤ a.mask_dest) →
      writeMasks f_ s c mem ((c.get ⟨i, hi⟩).mask_dest + k) =
        (Matcher.computeMask f_ (c.get ⟨i, hi⟩).matcher s).1.getD k 0 := by
  induction c with
  | nil =>
    intro mem i hi
    simp at hi
  | cons r c ih =>
    intro mem i hi k hk hd
    rw [List.pairwise_cons] at hd
    cases i with
    | zero =>
      have hg : (r :: c).get ⟨0, hi⟩ = r := rfl
      rw [hg]
      have hout := writeMasks_outside f_ s c
        (writeRow mem r.mask_dest (Matcher.computeMask f_ r.matcher s).1) (r.mask_dest + k)
        (by
          intro r1 hr1
          have := hd.1 r1 hr1
          omega)
      simp only [writeMasks, List.foldl_cons] at hout ⊢
      rw [hout]
      simp only [writeRow, computeMask_length]
      rw [if_pos (by omega)]
      congr 1
      omega
    | succ i =>
      have := ih (writeRow mem r.mask_dest (Matcher.computeMask f_ r.matcher s).1) i
        (by simpa using hi) k hk hd.2
      have hg : (r :: c).get ⟨i + 1, hi⟩ = c.get ⟨i, by simpa using hi⟩ := rfl
      rw [hg]
      simp only [writeMasks, List.foldl_cons] at this ⊢
      exact this

/-- The batch function of `seqEngine` is batch-consistent in the claim's
sense. -/
theorem seqEngine_batch (c : List cbison_mask_req) (mem : Mem) :
    (c.foldl (fun mem r => writeRow mem r.mask_dest [r.matcher]) mem) =
      writeMasks seqEngine () c mem :=
  rfl

/-- C8, as stated, fails when two requests share a destination: the engine
below stores for each request the mask `compute_mask` writes for its matcher
and nothing else, yet after `computeMasks` over `(matcher 1, row 0)` and
`(matcher 2, row 0)` the row of the first request holds `[2]`, while
`Matcher::computeMask()` of its matcher is `[1]`. -/
theorem computeMasks_overlap_counterexample :
    (∃ g, seqEngine.compute_masks = some g ∧
      ∀ (c : List cbison_mask_req) (mem : Mem),
        (g () c c.length mem).2.1 = writeMasks seqEngine () c mem) ∧
    readRow (Factory.computeMasks seqEngine [(1, 0), (2, 0)] (fun _ => 0) ()).2.1 0
      (seqEngine.mask_byte_len / 4) = [2] ∧
    (Matcher.computeMask seqEngine 1 ()).1 = [1] := by
  refine ⟨⟨_, rfl, fun c mem => seqEngine_batch c mem⟩, by decide, by decide⟩

/-- C8, amended: batch versus single consistency. `Factory::computeMasks`
hands the engine exactly one request per element of `reqs`, in order, the
i-th pairing the raw handle of `reqs[i]`'s matcher with `reqs[i]`'s
destination pointer. Hence, for an engine whose `compute_masks` writes into
each request's destination the mask that `compute_mask` writes for that
matcher and nothing else, and for requests whose destination rows do not
overlap one another, every destination row equals `Matcher::computeMask()` of
its matcher, and every word outside the requested rows is unchanged (still
zero if it was zero). -/
theorem computeMasks_batch_consistent {σ : Type} (f_ : cbison_factory σ)
    (compute_masks : σ → List cbison_mask_req → Nat → Mem → Int × Mem × σ)
    (reqs : List (Nat × Nat)) (mem : Mem) (s : σ)
    (hp : f_.compute_masks = some compute_masks)
    (hE : ∀ (c : List cbison_mask_req) (mem : Mem),
      (compute_masks s c c.length mem).2.1 = writeMasks f_ s c mem)
    (hd : rowsDisjoint (f_.mask_byte_len / 4) reqs) :
    Factory.computeMasks f_ reqs mem s =
      compute_masks s (reqs.map (fun r => (⟨r.1, r.2⟩ : cbison_mask_req))) reqs.length mem ∧
    (∀ (i : Nat) (hi : i < reqs.length),
      readRow (Factory.computeMasks f_ reqs mem s).2.1 (reqs.get ⟨i, hi⟩).2
          (f_.mask_byte_len / 4) =
        (Matcher.computeMask f_ (reqs.get ⟨i, hi⟩).1 s).1) ∧
    (∀ a : Nat, (∀ r ∈ reqs, ¬ (r.2 ≤ a ∧ a < r.2 + f_.mask_byte_len / 4)) →
      (Factory.computeMasks f_ reqs mem s).2.1 a = mem a ∧
      (mem a = 0 → (Factory.computeMasks f_ reqs mem s).2.1 a = 0)) := by
  have hcall : Factory.computeMasks f_ reqs mem s =
      compute_masks s (reqs.map (fun r => (⟨r.1, r.2⟩ : cbison_mask_req))) reqs.length mem := by
    simp only [Factory.computeMasks, hp, computeMasks_requests]
  have hmem : (Factory.computeMasks f_ reqs mem s).2.1 =
      writeMasks f_ s (reqs.map (fun r => (⟨r.1, r.2⟩ : cbison_mask_req))) mem := by
    rw [hcall]
    have := hE (reqs.map (fun r => (⟨r.1, r.2⟩ : cbison_mask_req))) mem
    rw [List.length_map] at this
    exact this
  have hpair : (reqs.map (fun r => (⟨r.1, r.2⟩ : cbison_mask_req))).Pairwise
      (fun a b => a.mask_dest + f_.mask_byte_len / 4 ≤ b.mask_dest ∨
        b.mask_dest + f_.mask_byte_len / 4 ≤ a.mask_dest) := by
    rw [List.pairwise_map]
    exact hd
  refine ⟨hcall, ?_, ?_⟩
  · intro i hi
    rw [hmem]
    apply List.ext_getElem
    · simp [readRow, computeMask_length]
    · intro k hk1 hk2
      have hk : k < f_.mask_byte_len / 4 := by
        simpa [readRow] using hk1
      have hi2 : i < (reqs.map (fun r => (⟨r.1, r.2⟩ : cbison_mask_req))).length := by
        simpa using hi
      have := writeMasks_row f_ s _ mem i hi2 k hk hpair
      simp only [List.get_eq_getElem, List.getElem_map] at this
      simp only [readRow, List.getElem_map, List.getElem_range, List.get_eq_getElem]
      rw [this, List.getD_eq_getElem?_getD]
      have hk3 : k < (Matcher.computeMask f_ reqs[i].1 s).1.length := by
        simpa [computeMask_length] using hk
      rw [List.getElem?_eq_getElem hk3]
      rfl
  · intro a ha
    have : (Factory.computeMasks f_ reqs mem s).2.1 a = mem a := by
      rw [hmem]
      apply writeMasks_outside
      intro r hr
      simp only [List.mem_map] at hr
      obtain ⟨r0, hr0, rfl⟩ := hr
      exact ha r0 hr0
    exact ⟨this, fun h0 => by rw [this, h0]⟩

/-- Witness of C8: rows 0 and 2 of a zeroed three-row buffer, as in the
repository's test; row 1 stays zero. -/
theorem computeMasks_batch_consistent_witness :
    readRow (Factory.computeMasks seqEngine [(1, 0), (2, 2)] (fun _ => 0) ()).2.1 0 1 = [1] ∧
    readRow (Factory.computeMasks seqEngine [(1, 0), (2, 2)] (fun _ => 0) ()).2.1 2 1 = [2] ∧
    (Factory.computeMasks seqEngine [(1, 0), (2, 2)] (fun _ => 0) ()).2.1 1 = 0 := by
  have h := computeMasks_batch_consistent seqEngine _ [(1, 0), (2, 2)] (fun _ => 0) () rfl
    (fun c mem => seqEngine_batch c mem) (by simp [rowsDisjoint, seqEngine])
  refine ⟨h.2.1 0 (by decide), h.2.1 1 (by decide), ?_⟩
  exact (h.2.2 1 (by simp [seqEngine])).1

/-! ## Ownership in `Tokenizer` -/

/-- Overwriting one position of a list changes the count of a value by the two
indicators. -/
theorem count_set_of_get {α : Type} [BEq α] [LawfulBEq α] (l : List α) (i : Nat)
    (old x y : α) (h : l.get? i = some old) :
    (l.set i x).count y + (if old == y then 1 else 0) =
      l.count y + (if x == y then 1 else 0) := by
  induction l generalizing i with
  | nil => simp at h
  | cons a l ih =>
    cases i with
    | zero =>
      simp only [List.get?_cons_zero, Option.some.injEq] at h
      subst h
      simp only [List.set_cons_zero, List.count_cons]
      omega
    | succ i =>
      simp only [List.get?_cons_succ] at h
      have := ih i h
      simp only [List.set_cons_succ, List.count_cons]
      omega

/-- A live object is a `some` entry of the store. -/
theorem live_eq_some {w : TokWorld} {x : Nat} {a : Tokenizer} (h : w.live x = some a) :
    w.objs.get? x = some (some a) := by
  unfold TokWorld.live at h
  cases hx : w.objs.get? x with
  | none =>
    rw [hx] at h
    simp at h
  | some v =>
    rw [hx] at h
    cases v with
    | none => simp at h
    | some b =>
      simp at h
      rw [h]

/-- Reading position `j` after writing position `i`, when the value written at
`i = j` is the one expected. -/
theorem get_set_same_or_other {α : Type} (l : List α) (i j : Nat) (x y : α)
    (hi : l.get? i = some x) (hj : l.get? j = some y) (z : α) (hz : i = j → z = y) :
    (l.set i z).get? j = some y := by
  by_cases hij : i = j
  · subst hij
    have hlt : i < l.length := by
      by_contra hge
      have : l.get? i = none := by
        simp only [List.get?_eq_getElem?]
        exact List.getElem?_eq_none (by omega)
      rw [this] at hi
      simp at hi
    rw [← hz rfl]
    simp [List.get?_eq_getElem?, List.getElem?_set, hlt]
  · simp only [List.get?_eq_getElem?] at hj ⊢
    rw [List.getElem?_set_ne hij]
    exact hj

/-- Every operation on `Tokenizer` objects preserves the ownership invariant.
-/
theorem balanced_step (w w1 : TokWorld) (op : TokOp) (hb : w.balanced)
    (hs : w.step op = some w1) : w1.balanced := by
  intro t
  have hbt := hb t
  cases op with
  | construct t0 =>
    simp only [TokWorld.step, Tokenizer.ctor, Option.some.injEq] at hs
    subst hs
    by_cases h0 : t0 = 0 <;>
    simp only [h0, ne_eq, not_true_eq_false, not_false_eq_true, if_true, if_false,
      List.count_append, List.count_cons, List.count_nil, beq_iff_eq, Option.some.injEq,
      Tokenizer.mk.injEq, TokCall.incr_ref_count.injEq, reduceCtorEq, List.append_nil] at hbt ⊢ <;>
    split_ifs at hbt ⊢ <;> omega
  | moveConstruct o =>
    simp only [TokWorld.step] at hs
    cases hl : w.live o with
    | none => simp [hl] at hs
    | some src =>
      simp only [hl, Option.some.injEq] at hs
      subst hs
      have hc := count_set_of_get w.objs o (some src) (some ⟨0⟩) (some ⟨t⟩) (live_eq_some hl)
      cases src with
      | mk st =>
        simp only [List.count_append, List.count_cons, List.count_nil, beq_iff_eq,
          Option.some.injEq, Tokenizer.mk.injEq] at hbt hc ⊢
        split_ifs at hbt hc ⊢ <;> omega
  | moveAssign self o =>
    simp only [TokWorld.step] at hs
    cases hl : w.live self with
    | none => simp [hl] at hs
    | some a =>
      cases hl2 : w.live o with
      | none => simp [hl, hl2] at hs
      | some b =>
        simp only [hl, hl2, Option.some.injEq] at hs
        subst hs
        have hget := live_eq_some hl
        have hget2 := live_eq_some hl2
        have hc1 := count_set_of_get w.objs self (some a) (some ⟨b.t_⟩) (some ⟨t⟩) hget
        have hget3 : (w.objs.set self (some ⟨b.t_⟩)).get? o = some (some b) :=
          get_set_same_or_other w.objs self o (some a) (some b) hget hget2 _ (fun _ => rfl)
        have hc2 := count_set_of_get (w.objs.set self (some ⟨b.t_⟩)) o (some b)
          (some ⟨0⟩) (some ⟨t⟩) hget3
        cases a with
        | mk at_ =>
          cases b with
          | mk bt =>
            by_cases ha : at_ = 0 <;>
            simp only [ha, ne_eq, not_true_eq_false, not_false_eq_true, if_true, if_false,
              List.count_append, List.count_cons, List.count_nil, beq_iff_eq,
              Option.some.injEq, Tokenizer.mk.injEq, TokCall.decr_ref_count.injEq,
              reduceCtorEq, List.append_nil] at hbt hc1 hc2 ⊢ <;>
            split_ifs at hbt hc1 hc2 ⊢ <;> omega
  | destroy self =>
    simp only [TokWorld.step] at hs
    cases hl : w.live self with
    | none => simp [hl] at hs
    | some a =>
      simp only [hl, Option.some.injEq] at hs
      subst hs
      have hc := count_set_of_get w.objs self (some a) none (some ⟨t⟩) (live_eq_some hl)
      cases a with
      | mk at_ =>
        by_cases ha : at_ = 0 <;>
        simp only [Tokenizer.dtor, ha, ne_eq, not_true_eq_false, not_false_eq_true, if_true,
          if_false, List.count_append, List.count_cons, List.count_nil, beq_iff_eq,
          Option.some.injEq, Tokenizer.mk.injEq, TokCall.decr_ref_count.injEq,
          reduceCtorEq, List.append_nil] at hbt hc ⊢ <;>
        split_ifs at hbt hc ⊢ <;> omega

/-- Every program on `Tokenizer` objects preserves the ownership invariant. -/
theorem balanced_run (ops : List TokOp) :
    ∀ (w w1 : TokWorld), w.balanced → w.run ops = some w1 → w1.balanced := by
  induction ops with
  | nil =>
    intro w w1 hb hr
    simp only [TokWorld.run, Option.some.injEq] at hr
    subst hr
    exact hb
  | cons op ops ih =>
    intro w w1 hb hr
    simp only [TokWorld.run] at hr
    cases hs : w.step op with
    | none => simp [hs] at hr
    | some w2 =>
      simp only [hs] at hr
      exact ih w2 w1 (balanced_step w w2 op hb hs) hr

/-- A position that holds a value is inside the list. -/
theorem get_lt_of_some {α : Type} {l : List α} {i : Nat} {x : α} (h : l.get? i = some x) :
    i < l.length := by
  by_contra hge
  have : l.get? i = none := by
    simp only [List.get?_eq_getElem?]
    exact List.getElem?_eq_none (by omega)
  rw [this] at h
  simp at h

/-- Move construction makes no call, nulls the source and hands its handle to
the new object. -/
theorem moveConstruct_spec (v v1 : TokWorld) (o : Nat)
    (h : v.step (TokOp.moveConstruct o) = some v1) :
    v1.calls = v.calls ∧ v1.live o = some ⟨0⟩ ∧ v1.live v.objs.length = v.live o := by
  simp only [TokWorld.step] at h
  cases hl : v.live o with
  | none => simp [hl] at h
  | some src =>
    simp only [hl, Option.some.injEq] at h
    subst h
    have hlt := get_lt_of_some (live_eq_some hl)
    refine ⟨rfl, ?_, ?_⟩
    · simp [TokWorld.live, List.get?_eq_getElem?, List.getElem?_append_left, hlt,
        List.getElem?_set]
    · simp [TokWorld.live, List.get?_eq_getElem?, List.getElem?_append_right]

/-- C9: the `Tokenizer` wrapper keeps the reference count balanced.
Constructing it from a non-null handle calls `incr_ref_count` exactly once;
destroying a wrapper that holds a non-null handle calls `decr_ref_count`
exactly once; a null handle triggers neither; move construction makes no
call, leaves the source holding null and gives the new wrapper the handle.
Hence, for every well-formed program of constructions, move constructions,
move assignments (self-assignment included) and destructions that ends with
all wrappers destroyed, each tokenizer `t` receives exactly as many
decrements as increments. -/
theorem tokenizer_refcount_balanced (ops : List TokOp) (w : TokWorld) (t : Nat)
    (hrun : TokWorld.run ⟨[], []⟩ ops = some w) (hall : w.allDestroyed = true) :
    (∀ h : Nat, h ≠ 0 → (Tokenizer.ctor h).2 = [TokCall.incr_ref_count h]) ∧
    (∀ x : Tokenizer, x.t_ ≠ 0 → x.dtor = [TokCall.decr_ref_count x.t_]) ∧
    (Tokenizer.ctor 0).2 = [] ∧
    Tokenizer.dtor ⟨0⟩ = [] ∧
    (∀ (v v1 : TokWorld) (o : Nat), v.step (TokOp.moveConstruct o) = some v1 →
      v1.calls = v.calls ∧ v1.live o = some ⟨0⟩ ∧ v1.live v.objs.length = v.live o) ∧
    w.calls.count (TokCall.incr_ref_count t) = w.calls.count (TokCall.decr_ref_count t) := by
  refine ⟨?_, ?_, rfl, rfl, moveConstruct_spec, ?_⟩
  · intro h hh
    simp [Tokenizer.ctor, hh]
  · intro x hx
    simp [Tokenizer.dtor, hx]
  · have h0 : TokWorld.balanced ⟨[], []⟩ := by
      intro t
      simp
    have hb := balanced_run ops _ w h0 hrun t
    have hnone : w.objs.count (some ⟨t⟩) = 0 := by
      rw [List.count_eq_zero]
      intro hmem
      simp only [TokWorld.allDestroyed, List.all_eq_true] at hall
      have := hall _ hmem
      simp at this
    rw [hnone] at hb
    simpa using hb

/-- Witness of C9: two tokenizers, a move construction, a move assignment, a
self-move-assignment and three destructions. -/
theorem tokenizer_refcount_balanced_witness :
    TokWorld.run ⟨[], []⟩
        [TokOp.construct 7, TokOp.construct 9, TokOp.moveConstruct 0, TokOp.moveAssign 1 2,
          TokOp.moveAssign 1 1, TokOp.destroy 0, TokOp.destroy 1, TokOp.destroy 2] =
      some ⟨[none, none, none],
        [TokCall.incr_ref_count 7, TokCall.incr_ref_count 9, TokCall.decr_ref_count 9,
          TokCall.decr_ref_count 7]⟩ ∧
    List.count (TokCall.incr_ref_count 7)
        [TokCall.incr_ref_count 7, TokCall.incr_ref_count 9, TokCall.decr_ref_count 9,
          TokCall.decr_ref_count 7] =
      List.count (TokCall.decr_ref_count 7)
        [TokCall.incr_ref_count 7, TokCall.incr_ref_count 9, TokCall.decr_ref_count 9,
          TokCall.decr_ref_count 7] :=
  ⟨by decide,
    (tokenizer_refcount_balanced
      [TokOp.construct 7, TokOp.construct 9, TokOp.moveConstruct 0, TokOp.moveAssign 1 2,
        TokOp.moveAssign 1 1, TokOp.destroy 0, TokOp.destroy 1, TokOp.destroy 2]
      ⟨[none, none, none],
        [TokCall.incr_ref_count 7, TokCall.incr_ref_count 9, TokCall.decr_ref_count 9,
          TokCall.decr_ref_count 7]⟩ 7 (by decide) (by decide)).2.2.2.2.2⟩

/-! ## Ownership in `Factory` -/

/-- C10, the code at a failing input: `Factory a(7); Factory b(a);` followed
by the destruction of `b` and of `a`. The class permits the copy, all
wrappers end destroyed, and the handle `7` is passed to `free_factory`
twice. -/
theorem factory_copy_frees_twice :
    FactoryWorld.run ⟨[], []⟩
        [FactoryOp.construct 7, FactoryOp.copyConstruct 0, FactoryOp.destroy 1,
          FactoryOp.destroy 0] =
      some ⟨[none, none], [7, 7]⟩ ∧
    FactoryWorld.allDestroyed ⟨[none, none], [7, 7]⟩ = true ∧
    List.count 7 [7, 7] = 2 := by
  refine ⟨by decide, by decide, by decide⟩

/-! ## `Matcher::computeMask` and `Factory::maskByteLen` -/

/-- The quotient in `ceilMaskByteLen` is the ceiling of `n_vocab / 32`: the
least number of 32-bit words that hold `n_vocab` bits. -/
theorem ceilMaskByteLen_words (n_vocab : Nat) :
    n_vocab ≤ 32 * ((n_vocab + 31) / 32) ∧ 32 * ((n_vocab + 31) / 32) < n_vocab + 32 := by
  omega

/-- C12, as stated, fails for a record whose `mask_byte_len` is not the
documented formula: with `n_vocab = 33` and `mask_byte_len = 6` the vector
`Matcher::computeMask` returns has `6 / 4 = 1` word, so 4 bytes and not
`maskByteLen() = 6`, and `maskByteLen()` is not `ceil(33 / 32) * 4 = 8`. -/
theorem computeMask_size_counterexample :
    (Matcher.computeMask oddMaskEngine 1 ()).1.length = 1 ∧
    4 * (Matcher.computeMask oddMaskEngine 1 ()).1.length ≠ Factory.maskByteLen oddMaskEngine ∧
    Factory.maskByteLen oddMaskEngine ≠ ceilMaskByteLen (Factory.nVocab oddMaskEngine) := by
  refine ⟨by decide, by decide, by decide⟩

/-- C12, amended: for every factory whose record carries
`mask_byte_len = ceil(n_vocab / 32) * 4`, `Matcher::computeMask` renders into
a buffer of exactly `mask_byte_len` bytes exposed as 32-bit words. The
returned vector has `maskByteLen() / 4` words, its size in bytes (4 times the
word count) equals `maskByteLen() = ceil(nVocab() / 32) * 4`, and the engine's
`compute_mask` is called on that zeroed buffer with the byte length
`maskByteLen()`, the vector returned being the buffer as the engine left
it. -/
theorem computeMask_size {σ : Type} (f_ : cbison_factory σ) (m_ : Nat) (s : σ)
    (h : f_.mask_byte_len = ceilMaskByteLen f_.n_vocab) :
    (Matcher.computeMask f_ m_ s).1.length = Factory.maskByteLen f_ / 4 ∧
    4 * (Matcher.computeMask f_ m_ s).1.length = Factory.maskByteLen f_ ∧
    Factory.maskByteLen f_ = ceilMaskByteLen (Factory.nVocab f_) ∧
    Matcher.computeMask f_ m_ s =
      ((f_.compute_mask s m_ (Factory.maskByteLen f_ / 4)
          (Buf.zeros (Factory.maskByteLen f_ / 4)) (Factory.maskByteLen f_)).2.1.val,
        (f_.compute_mask s m_ (Factory.maskByteLen f_ / 4)
          (Buf.zeros (Factory.maskByteLen f_ / 4)) (Factory.maskByteLen f_)).2.2) := by
  have hlen := computeMask_length f_ m_ s
  refine ⟨hlen, ?_, h, rfl⟩
  rw [hlen]
  simp only [Factory.maskByteLen, h, ceilMaskByteLen]
  omega

/-- Witness of C12: a record for 64 tokens with `mask_byte_len = 8`. -/
theorem computeMask_size_witness :
    (ffEngine 0).mask_byte_len = ceilMaskByteLen (ffEngine 0).n_vocab ∧
    (Matcher.computeMask (ffEngine 0) 1 ()).1.length = 2 ∧
    4 * (Matcher.computeMask (ffEngine 0) 1 ()).1.length = 8 :=
  ⟨by decide, (computeMask_size (ffEngine 0) 1 () (by decide)).1,
    (computeMask_size (ffEngine 0) 1 () (by decide)).2.1⟩
/-! ## The loader: symbol names and missing symbols -/

/-- A string without a NUL is its own C string. -/
theorem cstr_of_no_nul (l : List Nat) (h : 0 ∉ l) : cstr l = l := by
  unfold cstr
  rw [List.takeWhile_eq_self_iff]
  intro x hx
  have : x ≠ 0 := fun h0 => h (h0 ▸ hx)
  simpa using this

/-- The name a loader object with a NUL-free prefix hands to `dlsym` is the
prefix followed by the suffix, unchanged. -/
theorem get_sym_exact {σ : Type} (P : Platform σ) (dll : CbisonEngineDll) (suffix : List Nat)
    (hp : 0 ∉ dll.prefix_) (hs : 0 ∉ suffix) :
    dll.get_sym P (dll.prefix_ ++ suffix) = P.dlsym dll.handle_ (dll.prefix_ ++ suffix) := by
  unfold CbisonEngineDll.get_sym dl_get_sym
  rw [cstr_of_no_nul]
  intro h
  rcases List.mem_append.mp h with h | h
  · exact hp h
  · exact hs h

/-- C11, as stated, fails for a prefix that holds a NUL: `get_sym` hands
`name.c_str()` to `dlsym`, which reads the name up to the NUL. With the prefix
`a\0b` the symbol `prefix + "_cbison_new_factory"` is absent, yet
`new_factory` finds the symbol `a`, calls the engine, returns its handle and
leaves no `Missing symbol` message. -/
theorem loader_nul_prefix_counterexample :
    (CbisonEngineDll.load onlySymbolA ⟨0, []⟩ (str "x.so") [97, 0, 98]) =
      (true, ⟨1, [97, 0, 98]⟩) ∧
    onlySymbolA.dlsym 1 ([97, 0, 98] ++ str "_cbison_new_factory") = 0 ∧
    CbisonEngineDll.new_factory onlySymbolA ⟨1, [97, 0, 98]⟩ 0 [] 0 = (42, [], 1) := by
  refine ⟨by decide, by decide, by decide⟩

/-- C11, amended: symbol naming and missing-symbol reporting in the loader,
for a stored prefix that holds no NUL character. After a successful
`load(path, prefix)` the stored prefix is the given prefix when it is
non-empty and otherwise the stem of the path (the file's base name without
extension). For a loader object `dll` with a NUL-free prefix,
`new_hf_tokenizer` and `new_factory` look up exactly
`prefix + "_cbison_new_hf_tokenizer"` and `prefix + "_cbison_new_factory"`;
when that symbol is absent they return null, set the error string to exactly
`"Missing symbol: "` followed by that name and leave the engine state
untouched, and when it is present they return what the engine function at
that address returns, with the C string of its 1024-byte message buffer.
`new_byte_tokenizer` returns null without a call when
`prefix + "_cbison_new_byte_tokenizer"` is absent. -/
theorem loader_symbols {σ : Type} (P : Platform σ) (self dll : CbisonEngineDll)
    (path pfx tokenizer_json options_json : List Nat) (tokenizer : Nat) (s : σ)
    (hload : dl_load_library P path ≠ 0) (hnul : 0 ∉ dll.prefix_) :
    (CbisonEngineDll.load P self path pfx).1 = true ∧
    (CbisonEngineDll.load P self path pfx).2.handle_ = dl_load_library P path ∧
    (CbisonEngineDll.load P self path pfx).2.prefix_ =
      (if pfx ≠ [] then pfx else filesystem.path.stem path) ∧
    dll.new_hf_tokenizer P tokenizer_json options_json s =
      (if P.dlsym dll.handle_ (dll.prefix_ ++ str "_cbison_new_hf_tokenizer") = 0 then
        (0, str "Missing symbol: " ++ (dll.prefix_ ++ str "_cbison_new_hf_tokenizer"), s)
      else
        ((P.call_new_hf_tokenizer
            (P.dlsym dll.handle_ (dll.prefix_ ++ str "_cbison_new_hf_tokenizer")) s
            (cstr tokenizer_json) (cstr options_json) 1024 (Buf.zeros 1024)).1,
          cstr (P.call_new_hf_tokenizer
            (P.dlsym dll.handle_ (dll.prefix_ ++ str "_cbison_new_hf_tokenizer")) s
            (cstr tokenizer_json) (cstr options_json) 1024 (Buf.zeros 1024)).2.1.val,
          (P.call_new_hf_tokenizer
            (P.dlsym dll.handle_ (dll.prefix_ ++ str "_cbison_new_hf_tokenizer")) s
            (cstr tokenizer_json) (cstr options_json) 1024 (Buf.zeros 1024)).2.2)) ∧
    dll.new_factory P tokenizer options_json s =
      (if P.dlsym dll.handle_ (dll.prefix_ ++ str "_cbison_new_factory") = 0 then
        (0, str "Missing symbol: " ++ (dll.prefix_ ++ str "_cbison_new_factory"), s)
      else
        ((P.call_new_factory (P.dlsym dll.handle_ (dll.prefix_ ++ str "_cbison_new_factory")) s
            tokenizer (cstr options_json) 1024 (Buf.zeros 1024)).1,
          cstr (P.call_new_factory
            (P.dlsym dll.handle_ (dll.prefix_ ++ str "_cbison_new_factory")) s
            tokenizer (cstr options_json) 1024 (Buf.zeros 1024)).2.1.val,
          (P.call_new_factory (P.dlsym dll.handle_ (dll.prefix_ ++ str "_cbison_new_factory")) s
            tokenizer (cstr options_json) 1024 (Buf.zeros 1024)).2.2)) ∧
    dll.new_byte_tokenizer P s =
      (if P.dlsym dll.handle_ (dll.prefix_ ++ str "_cbison_new_byte_tokenizer") = 0 then (0, s)
      else P.call_new_byte_tokenizer
        (P.dlsym dll.handle_ (dll.prefix_ ++ str "_cbison_new_byte_tokenizer")) s) := by
  have h1 := get_sym_exact P dll (str "_cbison_new_hf_tokenizer") hnul (by decide)
  have h2 := get_sym_exact P dll (str "_cbison_new_factory") hnul (by decide)
  have h3 := get_sym_exact P dll (str "_cbison_new_byte_tokenizer") hnul (by decide)
  refine ⟨?_, ?_, ?_, ?_, ?_, ?_⟩
  · simp only [CbisonEngineDll.load]
    split_ifs <;> simp_all
  · simp only [CbisonEngineDll.load]
    split_ifs <;> simp_all
  · simp only [CbisonEngineDll.load]
    split_ifs <;> simp_all
  · simp only [CbisonEngineDll.new_hf_tokenizer, h1]
  · simp only [CbisonEngineDll.new_factory, h2]
  · simp only [CbisonEngineDll.new_byte_tokenizer, h3]

/-- Witness of C11: `/opt/engines/libllg.so` loaded with an empty prefix on a
platform that exports none of the three entry points. -/
theorem loader_symbols_witness :
    (CbisonEngineDll.load onlySymbolA ⟨0, []⟩ (str "/opt/engines/libllg.so") []) =
      (true, ⟨1, str "libllg"⟩) ∧
    CbisonEngineDll.new_hf_tokenizer onlySymbolA ⟨1, str "libllg"⟩ (str "{}") (str "{}") 0 =
      (0, str "Missing symbol: libllg_cbison_new_hf_tokenizer", 0) ∧
    CbisonEngineDll.new_factory onlySymbolA ⟨1, str "libllg"⟩ 7 (str "{}") 0 =
      (0, str "Missing symbol: libllg_cbison_new_factory", 0) ∧
    CbisonEngineDll.new_byte_tokenizer onlySymbolA ⟨1, str "libllg"⟩ 0 = (0, 0) := by
  have h := loader_symbols onlySymbolA ⟨0, []⟩ ⟨1, str "libllg"⟩
    (str "/opt/engines/libllg.so") [] (str "{}") (str "{}") 7 0 (by decide) (by decide)
  refine ⟨by decide, ?_, ?_, ?_⟩
  · rw [h.2.2.2.1]; decide
  · rw [h.2.2.2.2.1]; decide
  · rw [h.2.2.2.2.2]; decide
/-! ## Ownership in `Matcher` -/

/-- Overwriting one position of a list changes the number of entries that
satisfy a predicate by the two indicators. -/
theorem countP_set_of_get {α : Type} (p : α → Bool) (l : List α) (i : Nat) (old x : α)
    (h : l.get? i = some old) :
    (l.set i x).countP p + (if p old then 1 else 0) =
      l.countP p + (if p x then 1 else 0) := by
  induction l generalizing i with
  | nil => simp at h
  | cons a l ih =>
    cases i with
    | zero =>
      simp only [List.get?_cons_zero, Option.some.injEq] at h
      subst h
      simp only [List.set_cons_zero, List.countP_cons]
      omega
    | succ i =>
      simp only [List.get?_cons_succ] at h
      have := ih i h
      simp only [List.set_cons_succ, List.countP_cons]
      omega

/-- A live `Matcher` object is a `some` entry of the store. -/
theorem matcher_live_eq_some {w : MatcherWorld} {x : Nat} {a : Matcher}
    (h : w.live x = some a) : w.objs.get? x = some (some a) := by
  unfold MatcherWorld.live at h
  cases hx : w.objs.get? x with
  | none =>
    rw [hx] at h
    simp at h
  | some v =>
    rw [hx] at h
    cases v with
    | none => simp at h
    | some b =>
      simp at h
      rw [h]

/-- Every operation on `Matcher` objects preserves the ownership invariant. -/
theorem owned_step (w w1 : MatcherWorld) (op : MatcherOp) (hb : w.owned)
    (hs : w.step op = some w1) : w1.owned := by
  intro h
  have hbh := hb h
  cases op with
  | construct api m =>
    simp only [MatcherWorld.step, Option.some.injEq] at hs
    subst hs
    simp only [MatcherWorld.holders, Matcher.ctor, List.countP_append, List.countP_cons,
      List.countP_nil, List.count_append, List.count_cons, List.count_nil, Matcher.holds,
      beq_iff_eq] at hbh ⊢
    split_ifs at hbh ⊢ <;> omega
  | clone self c =>
    simp only [MatcherWorld.step] at hs
    cases hl : w.live self with
    | none => simp [hl] at hs
    | some a =>
      simp only [hl, Option.some.injEq] at hs
      subst hs
      simp only [MatcherWorld.holders, Matcher.ctor, List.countP_append, List.countP_cons,
        List.countP_nil, List.count_append, List.count_cons, List.count_nil, Matcher.holds,
        beq_iff_eq] at hbh ⊢
      split_ifs at hbh ⊢ <;> omega
  | moveConstruct o =>
    simp only [MatcherWorld.step] at hs
    cases hl : w.live o with
    | none => simp [hl] at hs
    | some src =>
      simp only [hl, Option.some.injEq] at hs
      subst hs
      have hc := countP_set_of_get (Matcher.holds h) w.objs o (some src)
        (some ⟨src.api_, 0⟩) (matcher_live_eq_some hl)
      simp only [MatcherWorld.holders, List.countP_append, List.countP_cons,
        List.countP_nil, Matcher.holds, beq_iff_eq] at hbh hc ⊢
      split_ifs at hbh hc ⊢ <;> omega
  | moveAssign self o =>
    simp only [MatcherWorld.step] at hs
    cases hl : w.live self with
    | none => simp [hl] at hs
    | some a =>
      cases hl2 : w.live o with
      | none => simp [hl, hl2] at hs
      | some b =>
        simp only [hl, hl2, Option.some.injEq] at hs
        subst hs
        have hget := matcher_live_eq_some hl
        have hget2 := matcher_live_eq_some hl2
        have hc1 := countP_set_of_get (Matcher.holds h) w.objs self (some a)
          (some ⟨b.api_, b.m_⟩) hget
        have hget3 : (w.objs.set self (some ⟨b.api_, b.m_⟩)).get? o = some (some b) :=
          get_set_same_or_other w.objs self o (some a) (some b) hget hget2 _ (fun _ => rfl)
        have hc2 := countP_set_of_get (Matcher.holds h)
          (w.objs.set self (some ⟨b.api_, b.m_⟩)) o (some b) (some ⟨b.api_, 0⟩) hget3
        by_cases ha : a.m_ = 0 <;>
        simp only [MatcherWorld.holders, ha, ne_eq, not_true_eq_false, not_false_eq_true,
          if_true, if_false, List.count_append, List.count_cons, List.count_nil,
          Matcher.holds, beq_iff_eq, List.append_nil] at hbh hc1 hc2 ⊢ <;>
        split_ifs at hbh hc1 hc2 ⊢ <;> omega
  | destroy self =>
    simp only [MatcherWorld.step] at hs
    cases hl : w.live self with
    | none => simp [hl] at hs
    | some a =>
      simp only [hl, Option.some.injEq] at hs
      subst hs
      have hc := countP_set_of_get (Matcher.holds h) w.objs self (some a) none
        (matcher_live_eq_some hl)
      by_cases ha : a.m_ = 0 <;>
      simp only [MatcherWorld.holders, Matcher.dtor, ha, ne_eq, not_true_eq_false,
        not_false_eq_true, if_true, if_false, List.count_append, List.count_cons,
        List.count_nil, Matcher.holds, beq_iff_eq, List.append_nil, Bool.false_eq_true]
        at hbh hc ⊢ <;>
      split_ifs at hbh hc ⊢ <;> omega

/-- Every program on `Matcher` objects preserves the ownership invariant. -/
theorem owned_run (ops : List MatcherOp) :
    ∀ (w w1 : MatcherWorld), w.owned → w.run ops = some w1 → w1.owned := by
  induction ops with
  | nil =>
    intro w w1 hb hr
    simp only [MatcherWorld.run, Option.some.injEq] at hr
    subst hr
    exact hb
  | cons op ops ih =>
    intro w w1 hb hr
    simp only [MatcherWorld.run] at hr
    cases hs : w.step op with
    | none => simp [hs] at hr
    | some w2 =>
      simp only [hs] at hr
      exact ih w2 w1 (owned_step w w2 op hb hs) hr

/-- Running a program in two parts. -/
theorem matcher_run_append (a b : List MatcherOp) :
    ∀ w : MatcherWorld, w.run (a ++ b) = (w.run a).bind (fun v => v.run b) := by
  induction a with
  | nil =>
    intro w
    rfl
  | cons op a ih =>
    intro w
    simp only [List.cons_append, MatcherWorld.run]
    cases w.step op with
    | none => rfl
    | some v => exact ih v

/-- An operation only adds to the list of wrapped handles. -/
theorem wrapped_step (w w1 : MatcherWorld) (op : MatcherOp) (hs : w.step op = some w1) :
    ∃ l, w1.wrapped = w.wrapped ++ l := by
  cases op with
  | construct api m =>
    simp only [MatcherWorld.step, Option.some.injEq] at hs
    subst hs
    exact ⟨[m], rfl⟩
  | clone self c =>
    simp only [MatcherWorld.step] at hs
    cases hl : w.live self with
    | none => simp [hl] at hs
    | some a =>
      simp only [hl, Option.some.injEq] at hs
      subst hs
      exact ⟨[c], rfl⟩
  | moveConstruct o =>
    simp only [MatcherWorld.step] at hs
    cases hl : w.live o with
    | none => simp [hl] at hs
    | some a =>
      simp only [hl, Option.some.injEq] at hs
      subst hs
      exact ⟨[], by simp⟩
  | moveAssign self o =>
    simp only [MatcherWorld.step] at hs
    cases hl : w.live self with
    | none => simp [hl] at hs
    | some a =>
      cases hl2 : w.live o with
      | none => simp [hl, hl2] at hs
      | some b =>
        simp only [hl, hl2, Option.some.injEq] at hs
        subst hs
        exact ⟨[], by simp⟩
  | destroy self =>
    simp only [MatcherWorld.step] at hs
    cases hl : w.live self with
    | none => simp [hl] at hs
    | some a =>
      simp only [hl, Option.some.injEq] at hs
      subst hs
      exact ⟨[], by simp⟩

/-- A program only adds to the list of wrapped handles. -/
theorem wrapped_run (ops : List MatcherOp) :
    ∀ (w w1 : MatcherWorld), w.run ops = some w1 → ∃ l, w1.wrapped = w.wrapped ++ l := by
  induction ops with
  | nil =>
    intro w w1 hr
    simp only [MatcherWorld.run, Option.some.injEq] at hr
    subst hr
    exact ⟨[], by simp⟩
  | cons op ops ih =>
    intro w w1 hr
    simp only [MatcherWorld.run] at hr
    cases hs : w.step op with
    | none => simp [hs] at hr
    | some w2 =>
      simp only [hs] at hr
      obtain ⟨l1, h1⟩ := wrapped_step w w2 op hs
      obtain ⟨l2, h2⟩ := ih w2 w1 hr
      exact ⟨l1 ++ l2, by rw [h2, h1, List.append_assoc]⟩

/-- While every non-null handle was wrapped once, at most one live wrapper
holds it. -/
theorem holders_le_one (w : MatcherWorld) (hb : w.owned) (hf : w.wrappedOnce) (h : Nat)
    (hne : h ≠ 0) : w.holders h ≤ 1 ∧ w.freed.count h + w.holders h = w.wrapped.count h := by
  have hbh := hb h
  simp only [hne, if_false] at hbh
  have hc : w.wrapped.count h ≤ 1 := by
    have h1 : (w.wrapped.filter (fun h => h != 0)).count h ≤ 1 :=
      List.nodup_iff_count_le_one.mp hf h
    rw [List.count_filter (by simpa using hne)] at h1
    exact h1
  omega

/-- Move construction frees nothing, leaves the source holding null and gives
the new wrapper what the source held. -/
theorem matcher_moveConstruct_spec (v v1 : MatcherWorld) (o : Nat)
    (h : v.step (MatcherOp.moveConstruct o) = some v1) :
    v1.freed = v.freed ∧ (v1.live o).map Matcher.m_ = some 0 ∧
      v1.live v.objs.length = v.live o := by
  simp only [MatcherWorld.step] at h
  cases hl : v.live o with
  | none => simp [hl] at h
  | some src =>
    simp only [hl, Option.some.injEq] at h
    subst h
    have hlt := get_lt_of_some (matcher_live_eq_some hl)
    refine ⟨rfl, ?_, ?_⟩
    · simp [MatcherWorld.live, List.get?_eq_getElem?, List.getElem?_append_left, hlt,
        List.getElem?_set]
    · simp [MatcherWorld.live, List.get?_eq_getElem?, List.getElem?_append_right]

/-- After a move assignment the source holds null, also when it is the
target. -/
theorem matcher_moveAssign_spec (v v1 : MatcherWorld) (self o : Nat)
    (h : v.step (MatcherOp.moveAssign self o) = some v1) :
    (v1.live o).map Matcher.m_ = some 0 := by
  simp only [MatcherWorld.step] at h
  cases hl : v.live self with
  | none => simp [hl] at h
  | some a =>
    cases hl2 : v.live o with
    | none => simp [hl, hl2] at h
    | some b =>
      simp only [hl, hl2, Option.some.injEq] at h
      subst h
      have hlt := get_lt_of_some (matcher_live_eq_some hl2)
      simp [MatcherWorld.live, List.get?_eq_getElem?, List.getElem?_set, hlt]

/-- C13, as stated, fails when a raw handle is wrapped twice: after
`Matcher a(1, 7); Matcher b(1, 7);` two live wrappers hold handle `7`, and
once both are destroyed `7` has been passed to `free_matcher` twice. -/
theorem matcher_double_wrap_counterexample :
    (MatcherWorld.run ⟨[], [], []⟩
        [MatcherOp.construct 1 7, MatcherOp.construct 1 7]).map
      (fun v => v.holders 7) = some 2 ∧
    MatcherWorld.run ⟨[], [], []⟩
        [MatcherOp.construct 1 7, MatcherOp.construct 1 7, MatcherOp.destroy 0,
          MatcherOp.destroy 1] =
      some ⟨[none, none], [7, 7], [7, 7]⟩ ∧
    List.count 7 [7, 7] = 2 := by
  refine ⟨by decide, by decide, by decide⟩

/-- C13, amended: every matcher handle is freed exactly once, provided no
non-null handle is wrapped twice (each raw handle is given to one constructor
and `clone_matcher` returns handles not wrapped before). For every well-formed
program of constructions from a raw handle, clones, move constructions, move
assignments (self-assignment included) and destructions that ends with all
wrappers destroyed: each non-null handle ever wrapped is passed to
`free_matcher` exactly once, and nothing else (null included) is passed to it;
at every moment of the program at most one live wrapper holds a given non-null
handle; a moved-from wrapper holds null, a move construction frees nothing and
a wrapper that holds null frees nothing when destroyed. -/
theorem matcher_freed_once (ops : List MatcherOp) (w : MatcherWorld)
    (hrun : MatcherWorld.run ⟨[], [], []⟩ ops = some w) (hall : w.allDestroyed = true)
    (hfresh : w.wrappedOnce) :
    (∀ h : Nat, h ≠ 0 → h ∈ w.wrapped → w.freed.count h = 1) ∧
    (∀ h : Nat, h ∉ w.wrapped → w.freed.count h = 0) ∧
    w.freed.count 0 = 0 ∧
    (∀ (k : Nat) (v : MatcherWorld), MatcherWorld.run ⟨[], [], []⟩ (ops.take k) = some v →
      ∀ h : Nat, h ≠ 0 → v.holders h ≤ 1) ∧
    (∀ (v v1 : MatcherWorld) (o : Nat), v.step (MatcherOp.moveConstruct o) = some v1 →
      v1.freed = v.freed ∧ (v1.live o).map Matcher.m_ = some 0 ∧
        v1.live v.objs.length = v.live o) ∧
    (∀ (v v1 : MatcherWorld) (self o : Nat), v.step (MatcherOp.moveAssign self o) = some v1 →
      (v1.live o).map Matcher.m_ = some 0) ∧
    (∀ api : Nat, Matcher.dtor ⟨api, 0⟩ = []) := by
  have h0 : MatcherWorld.owned ⟨[], [], []⟩ := by
    intro h
    simp [MatcherWorld.holders]
  have hown := owned_run ops _ w h0 hrun
  have hnone : ∀ h : Nat, w.holders h = 0 := by
    intro h
    simp only [MatcherWorld.holders, List.countP_eq_zero]
    intro x hx
    simp only [MatcherWorld.allDestroyed, List.all_eq_true] at hall
    have := hall x hx
    cases x with
    | none => simp [Matcher.holds]
    | some a => simp at this
  refine ⟨?_, ?_, ?_, ?_, matcher_moveConstruct_spec, matcher_moveAssign_spec, fun _ => rfl⟩
  · intro h hne hmem
    have := (holders_le_one w hown hfresh h hne).2
    have hle := (holders_le_one w hown hfresh h hne).1
    have hpos : 0 < w.wrapped.count h := List.count_pos_iff.mpr hmem
    have hcount : w.wrapped.count h ≤ 1 := by
      have h1 : (w.wrapped.filter (fun h => h != 0)).count h ≤ 1 :=
        List.nodup_iff_count_le_one.mp hfresh h
      rw [List.count_filter (by simpa using hne)] at h1
      exact h1
    rw [hnone h] at this
    omega
  · intro h hmem
    have hz : w.wrapped.count h = 0 := List.count_eq_zero.mpr hmem
    have := hown h
    rw [hnone h, hz] at this
    split_ifs at this <;> omega
  · have := hown 0
    simpa using this
  · intro k v hv h hne
    have hsplit : ops = ops.take k ++ ops.drop k := (List.take_append_drop k ops).symm
    have hr2 := hrun
    rw [hsplit, matcher_run_append, hv] at hr2
    simp only [Option.bind] at hr2
    obtain ⟨l, hl⟩ := wrapped_run (ops.drop k) v w hr2
    have hvf : v.wrappedOnce := by
      unfold MatcherWorld.wrappedOnce at hfresh ⊢
      rw [hl, List.filter_append] at hfresh
      exact hfresh.of_append_left
    exact (holders_le_one v (owned_run (ops.take k) _ v h0 hv) hvf h hne).1

/-- Witness of C13: a matcher, its clone, a move construction, a move
assignment, a self-move-assignment and three destructions. -/
theorem matcher_freed_once_witness :
    MatcherWorld.run ⟨[], [], []⟩
        [MatcherOp.construct 1 7, MatcherOp.clone 0 9, MatcherOp.moveConstruct 0,
          MatcherOp.moveAssign 1 2, MatcherOp.moveAssign 1 1, MatcherOp.destroy 0,
          MatcherOp.destroy 1, MatcherOp.destroy 2] =
      some ⟨[none, none, none], [9, 7], [7, 9]⟩ ∧
    List.count 7 [9, 7] = 1 ∧ List.count 9 [9, 7] = 1 ∧ List.count 0 [9, 7] = 0 := by
  have h := matcher_freed_once
    [MatcherOp.construct 1 7, MatcherOp.clone 0 9, MatcherOp.moveConstruct 0,
      MatcherOp.moveAssign 1 2, MatcherOp.moveAssign 1 1, MatcherOp.destroy 0,
      MatcherOp.destroy 1, MatcherOp.destroy 2]
    ⟨[none, none, none], [9, 7], [7, 9]⟩ (by decide) (by decide)
    (by unfold MatcherWorld.wrappedOnce; decide)
  exact ⟨by decide, h.1 7 (by decide) (by decide), h.1 9 (by decide) (by decide), h.2.2.1⟩

end cbison
